import Mathlib

/-!
# The JSON-to-metadata HTTP filter

A shallow embedding of
`source/extensions/filters/http/json_to_metadata/filter.cc` and theorems about
its rule evaluation, its metadata staging and its stream state machine.

Conventions of the embedding:

* C++ methods become functions with the same name; state that a method reaches
  through `this` or through `decoder_callbacks_` is passed explicitly.
* A failed `ASSERT` and an out-of-range vector access end the run with a
  `Fault`; every method that can reach one returns `Except Fault _`.
* `absl::Status` / `absl::StatusOr` become `Except StatusCode _`.
* Library code that the file calls but does not define (the JSON loader,
  `absl::SimpleAtod`, `std::to_string(double)`, `MAX_PAYLOAD_VALUE_LEN`)
  is a field of `Host`.
-/

namespace JsonToMetadata

/-! ## Numbers -/

/-- A binary64 value: `finite s m e` stands for `(-1)^s * m * 2^e`. -/
inductive Dbl where
  | finite (sign : Bool) (mant : Nat) (exp : Int)
  | infinite (sign : Bool)
  | nan
deriving DecidableEq, Repr

/-- The rational number a finite double stands for. -/
def Dbl.toRat : Dbl → Option ℚ
  | .finite s m e => some ((if s then -1 else 1) * (m : ℚ) * (2 : ℚ) ^ e)
  | .infinite _ => none
  | .nan => none

/-- The double whose mantissa is the integer itself (exact below `2^53`). -/
def Dbl.ofInt (i : Int) : Dbl := .finite (decide (i < 0)) i.natAbs 0

/-- The position of the highest set bit of a number, by halving at most `fuel`
times. -/
def highBit : Nat → Nat → Nat
  | 0, _ => 0
  | fuel + 1, n => if n < 2 then 0 else highBit fuel (n / 2) + 1

/-- Round a natural number to 53 significant bits, to nearest, ties to even:
the result `(m, e)` stands for `m * 2^e`. -/
def roundToDouble (n : Nat) : Nat × Nat :=
  if n < 2 ^ 53 then (n, 0)
  else
    let e := highBit n n - 52
    let q := n / 2 ^ e
    let r := n % 2 ^ e
    let half := 2 ^ (e - 1)
    if half < r ∨ (r = half ∧ q % 2 = 1) then (q + 1, e) else (q, e)

/-- The conversion `static_cast<double>(val)` of a `bool`. -/
def castBool (val : Bool) : Dbl := .finite false (if val then 1 else 0) 0

/-- The conversion `static_cast<double>(val)` of an `int64_t`. -/
def castInt64 (val : Int) : Dbl :=
  let me := roundToDouble val.natAbs
  .finite (decide (val < 0)) me.1 (Int.ofNat me.2)

/-! ## Status codes and faults -/

/-- The codes of `absl::Status` that the filter and the JSON object produce. -/
inductive StatusCode where
  | notFound
  | internal
  | invalidArgument
deriving DecidableEq, Repr

/-- Ways a run can leave defined behaviour. -/
inductive Fault where
  | assertion
  | outOfBounds
deriving DecidableEq, Repr

/-! ## JSON values -/

/-- Modelled from the spec: the Value Model of section 3, the JSON tree that
`Json::Factory::loadFromStringNoThrow` hands to the filter (`Json::Object` is
declared outside this file). Scalars are Bool, Int64, Float64 and String,
composites are Object and Array. -/
inductive Json where
  | null
  | boolean (b : Bool)
  | integer (i : Int)
  | double (d : Dbl)
  | string (s : String)
  | array (items : List Json)
  | object (fields : List (String × Json))

/-- The variant `Json::ValueType` of `bool`, `int64_t`, `double`, `std::string`. -/
inductive ValueType where
  | bool (val : Bool)
  | int64 (val : Int)
  | double (val : Dbl)
  | string (val : String)
deriving DecidableEq, Repr

/-- Lookup of a key in a key/value list, first match. -/
def assocFind {β : Type} : List (String × β) → String → Option β
  | [], _ => none
  | (k, v) :: rest, name => if k = name then some v else assocFind rest name

/-- Write of a key in a key/value list: the entry is replaced where the key is
present and appended where it is not (`m[name] = v` on a map). -/
def assocSet {β : Type} : List (String × β) → String → β → List (String × β)
  | [], name, v => [(name, v)]
  | (k, w) :: rest, name, v =>
    if k = name then (k, v) :: rest else (k, w) :: assocSet rest name v

/-- Modelled from the spec: `Json::Object::getObjectNoThrow(name)`, the
object-keyed lookup of section 4.3 step 1. It fails when the node is not an
object, when the key is absent and when the value under the key is not an
object. -/
def getObjectNoThrow (node : Json) (name : String) : Except StatusCode Json :=
  match node with
  | .object fields =>
    match assocFind fields name with
    | some (.object sub) => .ok (.object sub)
    | some _ => .error .invalidArgument
    | none => .error .invalidArgument
  | _ => .error .invalidArgument

/-- Modelled from the spec: `Json::Object::getValue(name)`, the leaf lookup of
section 4.3 step 3. It fails when the key is absent and when the value under
the key is not one of the four scalars. -/
def getValue (node : Json) (name : String) : Except StatusCode ValueType :=
  match node with
  | .object fields =>
    match assocFind fields name with
    | some (.boolean b) => .ok (.bool b)
    | some (.integer i) => .ok (.int64 i)
    | some (.double d) => .ok (.double d)
    | some (.string s) => .ok (.string s)
    | some _ => .error .internal
    | none => .error .notFound
  | _ => .error .notFound

/-! ## Metadata values and the staged map -/

/-- The message `ProtobufWkt::Value`; `notSet` is the value of a field that
was never assigned. -/
inductive ProtoValue where
  | notSet
  | nullValue
  | numberValue (d : Dbl)
  | stringValue (s : String)
  | boolValue (b : Bool)
  | structValue (fields : List (String × ProtoValue))
  | listValue (items : List ProtoValue)

/-- The message `ProtobufWkt::Struct`: its `fields` map. -/
abbrev Struct := List (String × ProtoValue)

/-- The type `StructMap`: namespace to `Struct`, each namespace once. The list
keeps the namespaces in the order of their first write; the order in which the
hash map of the source is iterated is not specified. -/
abbrev StructMap := List (String × Struct)

/-- The entry of a namespace/key pair in a namespace map. -/
def lookupEntry (m : StructMap) (nspace key : String) : Option ProtoValue :=
  match assocFind m nspace with
  | some fields => assocFind fields key
  | none => none

/-- The external libraries and constants the filter is compiled against. -/
structure Host where
  /-- The JSON loader `Json::Factory::loadFromStringNoThrow`: an error, a null
  pointer for a root that is not a JSON object, or the root node. -/
  loadFromStringNoThrow : String → Except String (Option Json)
  /-- The parser `absl::SimpleAtod`. -/
  simpleAtod : String → Option Dbl
  /-- The formatter `std::to_string(double)`. -/
  doubleToString : Dbl → String
  /-- The constant `MAX_PAYLOAD_VALUE_LEN` of `filter.h`. -/
  maxPayloadValueLen : Nat

/-! ## Converters -/

/-- The characters `StringUtil::WhitespaceChars`. -/
def isWhitespaceChar (c : Char) : Bool :=
  c = ' ' || c = '\t' || c = '\x0c' || c = '\x0b' || c = '\n' || c = '\r'

/-- Modelled from the spec: `StringUtil::trim`, which removes leading and
trailing whitespace (section 4.1, `toNumber`). -/
def trim (s : String) : String :=
  String.mk ((s.data.dropWhile isWhitespaceChar).reverse.dropWhile isWhitespaceChar).reverse

/-- The decimal digits of a natural number, most significant first. -/
def natDigits : Nat → Nat → List Char
  | 0, _ => []
  | fuel + 1, n =>
    if n < 10 then [Char.ofNat (48 + n)]
    else natDigits fuel (n / 10) ++ [Char.ofNat (48 + n % 10)]

/-- The result of `std::to_string` on an integer: decimal, with a minus sign
for a negative value. -/
def intToString (i : Int) : String :=
  if i < 0 then String.mk ('-' :: natDigits (i.natAbs + 1) i.natAbs)
  else String.mk (natDigits (i.natAbs + 1) i.natAbs)

/-- The visitor `JsonValueToStringConverter`. The `bool` overload calls
`std::to_string(val)`, which promotes the `bool` to `int`. -/
def JsonValueToStringConverter (h : Host) : ValueType → String
  | .bool val => intToString (if val then 1 else 0)
  | .int64 val => intToString val
  | .double val => h.doubleToString val
  | .string val => val

/-- The visitor `JsonValueToDoubleConverter`. -/
def JsonValueToDoubleConverter (h : Host) : ValueType → Except StatusCode Dbl
  | .bool val => .ok (castBool val)
  | .int64 val => .ok (castInt64 val)
  | .double val => .ok val
  | .string val =>
    match h.simpleAtod (trim val) with
    | some dval => .ok dval
    | none => .error .internal

/-- The visitor `JsonValueToProtobufValueConverter`. -/
def JsonValueToProtobufValueConverter (h : Host) : ValueType → Except StatusCode ProtoValue
  | .bool val => .ok (.boolValue val)
  | .int64 val => .ok (.numberValue (castInt64 val))
  | .double val => .ok (.numberValue val)
  | .string val =>
    if val.utf8ByteSize > h.maxPayloadValueLen then .error .internal
    else .ok (.stringValue val)

/-! ## Configuration -/

/-- The enum `JsonToMetadata::ValueType` of the configuration. -/
inductive KeyValueType where
  | PROTOBUF_VALUE
  | STRING
  | NUMBER
deriving DecidableEq, Repr

/-- The configuration message `KeyValuePair`; `value` is `none` when
`has_value()` is false. -/
structure KeyValuePair where
  metadata_namespace : String
  key : String
  value : Option ProtoValue
  type : KeyValueType
  preserve_existing_metadata_value : Bool

/-- The accessor `value()`: the literal, or the default message when unset. -/
def KeyValuePair.valueOrDefault (keyval : KeyValuePair) : ProtoValue :=
  match keyval.value with
  | some v => v
  | none => .notSet

/-- The configuration message `ProtoRule`: the keys of its selectors and the
three outcomes, each `none` when its `has_...()` is false. -/
structure ProtoRule where
  selectors : List String
  on_present : Option KeyValuePair
  on_missing : Option KeyValuePair
  on_error : Option KeyValuePair

/-- The class `Rule`: the configuration message and the keys of the path. -/
structure Rule where
  rule_ : ProtoRule
  keys_ : List String

/-- The constructor `Rule::Rule`; an `EnvoyException` is the error case. -/
def Rule.create (rule : ProtoRule) : Except String Rule :=
  if rule.on_present.isNone && rule.on_missing.isNone then
    .error "json to metadata filter: neither on_present nor on_missing set"
  else if (match rule.on_missing with
      | some keyval => keyval.value.isNone
      | none => false) then
    .error "json to metadata filter: cannot specify on_missing rule with empty value"
  else if (match rule.on_error with
      | some keyval => keyval.value.isNone
      | none => false) then
    .error "json to metadata filter: cannot specify on_error rule with empty value"
  else
    .ok { rule_ := rule, keys_ := rule.selectors.foldl (fun keys key => keys ++ [key]) [] }

/-- The part of the configuration message `JsonToMetadata` the filter reads. -/
structure ProtoConfig where
  rules : List ProtoRule
  allow_content_types : List String
  allow_empty_content_type : Bool

/-- The counters of `ALL_JSON_TO_METADATA_FILTER_STATS`. -/
structure Stats where
  rq_success_ : Nat
  rq_no_body_ : Nat
  rq_invalid_json_body_ : Nat
  rq_mismatched_content_type_ : Nat
deriving DecidableEq, Repr

/-- The class `FilterConfig`. The accessor `doRequest()` is declared in
`filter.h`; its value is a field here. -/
structure FilterConfig where
  request_rules_ : List Rule
  request_allow_content_types_ : List String
  request_allow_empty_content_type_ : Bool
  doRequest : Bool

/-- The method `FilterConfig::generateRequestRules`. -/
def generateRequestRules : List ProtoRule → Except String (List Rule)
  | [] => .ok []
  | rule :: rest =>
    match Rule.create rule with
    | .error e => .error e
    | .ok r =>
      match generateRequestRules rest with
      | .error e => .error e
      | .ok rs => .ok (r :: rs)

/-- The method `FilterConfig::generateRequestAllowContentTypes`. -/
def generateRequestAllowContentTypes (proto_config : ProtoConfig) : List String :=
  if proto_config.allow_content_types.isEmpty then ["application/json"]
  else proto_config.allow_content_types.foldl
    (fun set ct => if ct ∈ set then set else set ++ [ct]) []

/-- The method `FilterConfig::requestContentTypeAllowed`. -/
def requestContentTypeAllowed (config : FilterConfig) (content_type : String) : Bool :=
  if content_type = "" then config.request_allow_empty_content_type_
  else decide (content_type ∈ config.request_allow_content_types_)

/-! ## The metadata builder -/

/-- The method `Filter::decideNamespace`. -/
def decideNamespace (nspace : String) : String :=
  if nspace = "" then "envoy.filters.http.json_to_metadata" else nspace

/-- The method `Filter::addMetadata`; `filter_metadata` is the map
`decoder_callbacks_->streamInfo().dynamicMetadata().filter_metadata()`. -/
def addMetadata (filter_metadata : StructMap) (meta_namespace key : String) (val : ProtoValue)
    (preserve_existing_metadata_value : Bool) (struct_map : StructMap) : Bool × StructMap :=
  if preserve_existing_metadata_value &&
      (match assocFind filter_metadata meta_namespace with
        | some metadata => (assocFind metadata key).isSome
        | none => false) then
    (false, struct_map)
  else
    let keyval := (assocFind struct_map meta_namespace).getD []
    (true, assocSet struct_map meta_namespace (assocSet keyval key val))

/-- The overload `Filter::applyKeyValue(ProtobufWkt::Value, ...)`. -/
def applyKeyValue (filter_metadata : StructMap) (value : ProtoValue) (keyval : KeyValuePair)
    (struct_map : StructMap) : StructMap :=
  let nspace := decideNamespace keyval.metadata_namespace
  (addMetadata filter_metadata nspace keyval.key value
    keyval.preserve_existing_metadata_value struct_map).2

/-- The overload `Filter::applyKeyValue(const std::string&, ...)`, with its
`ASSERT(!value.empty())`. -/
def applyKeyValueString (filter_metadata : StructMap) (value : String) (keyval : KeyValuePair)
    (struct_map : StructMap) : Except Fault StructMap :=
  if value = "" then .error .assertion
  else .ok (applyKeyValue filter_metadata (.stringValue value) keyval struct_map)

/-- The overload `Filter::applyKeyValue(double, ...)`. -/
def applyKeyValueDouble (filter_metadata : StructMap) (value : Dbl) (keyval : KeyValuePair)
    (struct_map : StructMap) : StructMap :=
  applyKeyValue filter_metadata (.numberValue value) keyval struct_map

/-! ## The filter and its host -/

/-- The per-request `Filter` with the host state it reaches through
`decoder_callbacks_` and `config_`. The last three fields record the calls
made on the host and on `finalizeDynamicMetadata`, in order. -/
structure Filter where
  config_ : FilterConfig
  /-- The counters `config_->stats()`. -/
  stats_ : Stats
  request_processing_finished_ : Bool
  /-- The buffer `decoder_callbacks_->decodingBuffer()`, `none` for a null pointer. -/
  decodingBuffer : Option String
  /-- The map `streamInfo().dynamicMetadata().filter_metadata()`. -/
  dynamicMetadata : StructMap
  /-- The arguments of each `setDynamicMetadata` call so far. -/
  setDynamicMetadataCalls : List (String × Struct)
  /-- The number of `clearRouteCache` calls so far. -/
  clearRouteCacheCalls : Nat
  /-- The map handed to each `finalizeDynamicMetadata` call so far. -/
  finalizeCalls : List StructMap

/-- Modelled from the spec: `StreamInfo::setDynamicMetadata`, which merges the
entries of `value` into the namespace `name` of the metadata store
(section 4.4, `commit`). -/
def setDynamicMetadata (md : StructMap) (name : String) (value : Struct) : StructMap :=
  assocSet md name
    (value.foldl (fun fields entry => assocSet fields entry.1 entry.2)
      ((assocFind md name).getD []))

/-- The loop `for (auto const& entry : struct_map)` of
`finalizeDynamicMetadata` on the store. -/
def setAllDynamicMetadata (md : StructMap) (struct_map : StructMap) : StructMap :=
  struct_map.foldl (fun store entry => setDynamicMetadata store entry.1 entry.2) md

/-- The method `Filter::finalizeDynamicMetadata`. The flag it receives by
reference is `request_processing_finished_` at every call site. -/
def finalizeDynamicMetadata (f : Filter) (struct_map : StructMap) : Except Fault Filter :=
  if f.request_processing_finished_ then .error .assertion
  else
    let f1 : Filter := { f with
      request_processing_finished_ := true
      finalizeCalls := f.finalizeCalls ++ [struct_map] }
    if !struct_map.isEmpty then
      .ok { f1 with
        dynamicMetadata := setAllDynamicMetadata f1.dynamicMetadata struct_map
        setDynamicMetadataCalls := f1.setDynamicMetadataCalls ++ struct_map
        clearRouteCacheCalls := f1.clearRouteCacheCalls + 1 }
    else .ok f1

/-- The method `Filter::handleOnMissing`. -/
def handleOnMissing (filter_metadata : StructMap) (rule : Rule) (struct_map : StructMap) :
    StructMap :=
  match rule.rule_.on_missing with
  | some on_missing => applyKeyValue filter_metadata on_missing.valueOrDefault on_missing struct_map
  | none => struct_map

/-- The loop of `Filter::handleAllOnMissing` over the rules. -/
def stageAllOnMissing (filter_metadata : StructMap) : List Rule → StructMap → StructMap
  | [], struct_map => struct_map
  | rule :: rest, struct_map =>
    stageAllOnMissing filter_metadata rest
      (match rule.rule_.on_missing with
        | some on_missing =>
          applyKeyValue filter_metadata on_missing.valueOrDefault on_missing struct_map
        | none => struct_map)

/-- The method `Filter::handleAllOnMissing`. -/
def handleAllOnMissing (f : Filter) (rules : List Rule) : Except Fault Filter :=
  finalizeDynamicMetadata f (stageAllOnMissing f.dynamicMetadata rules [])

/-- The loop of `Filter::handleAllOnError` over the rules. -/
def stageAllOnError (filter_metadata : StructMap) : List Rule → StructMap → StructMap
  | [], struct_map => struct_map
  | rule :: rest, struct_map =>
    stageAllOnError filter_metadata rest
      (match rule.rule_.on_error with
        | some on_error =>
          applyKeyValue filter_metadata on_error.valueOrDefault on_error struct_map
        | none => struct_map)

/-- The method `Filter::handleAllOnError`. -/
def handleAllOnError (f : Filter) (rules : List Rule) : Except Fault Filter :=
  finalizeDynamicMetadata f (stageAllOnError f.dynamicMetadata rules [])

/-- The method `Filter::handleOnPresent`: the status it returns and the staged
map it leaves. -/
def handleOnPresent (h : Host) (filter_metadata : StructMap) (parent_node : Json)
    (key : String) (rule : Rule) (struct_map : StructMap) :
    Except Fault (Except StatusCode Unit × StructMap) :=
  match rule.rule_.on_present with
  | none => .ok (.ok (), struct_map)
  | some on_present_keyval =>
    match on_present_keyval.value with
    | some value =>
      .ok (.ok (), applyKeyValue filter_metadata value on_present_keyval struct_map)
    | none =>
      match getValue parent_node key with
      | .error status => .ok (.error status, struct_map)
      | .ok result =>
        match on_present_keyval.type with
        | .PROTOBUF_VALUE =>
          match JsonValueToProtobufValueConverter h result with
          | .ok value_result =>
            .ok (.ok (), applyKeyValue filter_metadata value_result on_present_keyval struct_map)
          | .error status => .ok (.error status, struct_map)
        | .NUMBER =>
          match JsonValueToDoubleConverter h result with
          | .ok double_result =>
            .ok (.ok (),
              applyKeyValueDouble filter_metadata double_result on_present_keyval struct_map)
          | .error status => .ok (.error status, struct_map)
        | .STRING =>
          let str := JsonValueToStringConverter h result
          if str.utf8ByteSize > h.maxPayloadValueLen then
            .ok (.error .invalidArgument, struct_map)
          else if str = "" then .ok (.ok (), struct_map)
          else
            match applyKeyValueString filter_metadata str on_present_keyval struct_map with
            | .error fault => .error fault
            | .ok staged => .ok (.ok (), staged)

/-- The value of `keys.size() - 1` in `unsigned long` arithmetic: the integer
difference reduced modulo `2^64`. -/
def sizeMinusOne (size : Nat) : Nat := (((size : Int) - 1) % 2 ^ 64).toNat

/-- The loop `for (unsigned long i = 0; i < keys.size() - 1; i++)` of
`processBody` from index `i` at `node`, with `fuel` iterations left. It
returns the indices at which `keys[i]` was read, in order, and either the
node reached or the status of the lookup that failed. -/
def walkKeys (keys : List String) (bound : Nat) :
    Nat → Nat → Json → Except Fault (List Nat × Except StatusCode Json)
  | 0, _, node => .ok ([], .ok node)
  | fuel + 1, i, node =>
    if i < bound then
      match keys.get? i with
      | none => .error .outOfBounds
      | some key =>
        match getObjectNoThrow node key with
        | .error status => .ok ([i], .error status)
        | .ok next_node =>
          match walkKeys keys bound fuel (i + 1) next_node with
          | .error fault => .error fault
          | .ok (visited, result) => .ok (i :: visited, result)
    else .ok ([], .ok node)

/-- The body of the loop `for (const auto& rule : rules)` of `processBody`. -/
def processRule (h : Host) (filter_metadata : StructMap) (body_json : Json) (rule : Rule)
    (struct_map : StructMap) : Except Fault StructMap :=
  let keys := rule.keys_
  match walkKeys keys (sizeMinusOne keys.length) (sizeMinusOne keys.length) 0 body_json with
  | .error fault => .error fault
  | .ok (_, .error _) => .ok (handleOnMissing filter_metadata rule struct_map)
  | .ok (_, .ok node) =>
    match keys.getLast? with
    | none => .error .outOfBounds
    | some back =>
      match handleOnPresent h filter_metadata node back rule struct_map with
      | .error fault => .error fault
      | .ok (.ok _, staged) => .ok staged
      | .ok (.error _, staged) => .ok (handleOnMissing filter_metadata rule staged)

/-- The loop `for (const auto& rule : rules)` of `processBody`. -/
def processRules (h : Host) (filter_metadata : StructMap) (body_json : Json) :
    List Rule → StructMap → Except Fault StructMap
  | [], struct_map => .ok struct_map
  | rule :: rest, struct_map =>
    match processRule h filter_metadata body_json rule struct_map with
    | .error fault => .error fault
    | .ok staged => processRules h filter_metadata body_json rest staged

/-- Increment of `rq_success`. -/
def Filter.incSuccess (f : Filter) : Filter :=
  { f with stats_ := { f.stats_ with rq_success_ := f.stats_.rq_success_ + 1 } }

/-- Increment of `rq_no_body`. -/
def Filter.incNoBody (f : Filter) : Filter :=
  { f with stats_ := { f.stats_ with rq_no_body_ := f.stats_.rq_no_body_ + 1 } }

/-- Increment of `rq_invalid_json_body`. -/
def Filter.incInvalidJsonBody (f : Filter) : Filter :=
  { f with stats_ :=
      { f.stats_ with rq_invalid_json_body_ := f.stats_.rq_invalid_json_body_ + 1 } }

/-- Increment of `rq_mismatched_content_type`. -/
def Filter.incMismatchedContentType (f : Filter) : Filter :=
  { f with stats_ :=
      { f.stats_ with
        rq_mismatched_content_type_ := f.stats_.rq_mismatched_content_type_ + 1 } }

/-- The method `Filter::processBody`, with the flag and the three counters
bound as `processRequestBody` binds them: `request_processing_finished_`,
`rq_success_`, `rq_no_body_` and `rq_invalid_json_body_`. -/
def processBody (h : Host) (f : Filter) (body : Option String) (rules : List Rule) :
    Except Fault Filter :=
  match body with
  | none =>
    match handleAllOnMissing f rules with
    | .error fault => .error fault
    | .ok f1 => .ok f1.incNoBody
  | some bytes =>
    if bytes.utf8ByteSize = 0 then
      match handleAllOnMissing f rules with
      | .error fault => .error fault
      | .ok f1 => .ok f1.incNoBody
    else
      match h.loadFromStringNoThrow bytes with
      | .error _ => handleAllOnError f.incInvalidJsonBody rules
      | .ok none =>
        match handleAllOnMissing f rules with
        | .error fault => .error fault
        | .ok f1 => .ok f1.incSuccess
      | .ok (some body_json) =>
        match processRules h f.dynamicMetadata body_json rules [] with
        | .error fault => .error fault
        | .ok struct_map => finalizeDynamicMetadata f.incSuccess struct_map

/-- The method `Filter::processRequestBody`. -/
def processRequestBody (h : Host) (f : Filter) : Except Fault Filter :=
  processBody h f f.decodingBuffer f.config_.request_rules_

/-- The enum `Http::FilterHeadersStatus`, the values the filter returns. -/
inductive FilterHeadersStatus where
  | Continue
  | StopIteration
deriving DecidableEq, Repr

/-- The enum `Http::FilterDataStatus`, the values the filter returns. -/
inductive FilterDataStatus where
  | Continue
  | StopIterationAndBuffer
deriving DecidableEq, Repr

/-- The enum `Http::FilterTrailersStatus`, the value the filter returns. -/
inductive FilterTrailersStatus where
  | Continue
deriving DecidableEq, Repr

/-- The method `Filter::decodeHeaders`; `content_type` is
`headers.getContentTypeValue()`. -/
def decodeHeaders (f : Filter) (content_type : String) (end_stream : Bool) :
    Except Fault (FilterHeadersStatus × Filter) :=
  if !f.config_.doRequest then .error .assertion
  else if !requestContentTypeAllowed f.config_ content_type then
    .ok (.Continue,
      ({ f with request_processing_finished_ := true } : Filter).incMismatchedContentType)
  else if end_stream then
    match handleAllOnMissing f f.config_.request_rules_ with
    | .error fault => .error fault
    | .ok f1 => .ok (.Continue, f1.incNoBody)
  else .ok (.StopIteration, f)

/-- Modelled from the spec: `decoder_callbacks_->addDecodedData(data, true)`,
which appends the chunk to the decoding buffer and creates the buffer when
there is none (section 4.5, "append to buffer"). -/
def addDecodedData (f : Filter) (data : String) : Filter :=
  { f with decodingBuffer := some ((f.decodingBuffer.getD "") ++ data) }

/-- The method `Filter::decodeData`. -/
def decodeData (h : Host) (f : Filter) (data : String) (end_stream : Bool) :
    Except Fault (FilterDataStatus × Filter) :=
  if !f.config_.doRequest then .error .assertion
  else if f.request_processing_finished_ then .ok (.Continue, f)
  else if end_stream then
    let f1 := addDecodedData f data
    if (match f1.decodingBuffer with
        | none => true
        | some buffer => decide (buffer.utf8ByteSize = 0)) then
      match handleAllOnMissing f1 f1.config_.request_rules_ with
      | .error fault => .error fault
      | .ok f2 => .ok (.Continue, f2.incNoBody)
    else
      match processRequestBody h f1 with
      | .error fault => .error fault
      | .ok f2 => .ok (.Continue, f2)
  else .ok (.StopIterationAndBuffer, f)

/-- The method `Filter::decodeTrailers`. -/
def decodeTrailers (h : Host) (f : Filter) : Except Fault (FilterTrailersStatus × Filter) :=
  if !f.config_.doRequest then .error .assertion
  else if !f.request_processing_finished_ then
    match processRequestBody h f with
    | .error fault => .error fault
    | .ok f1 => .ok (.Continue, f1)
  else .ok (.Continue, f)

/-! ## Driving the filter -/

/-- One callback the filter manager makes on the filter. -/
inductive Call where
  | headers (content_type : String) (end_stream : Bool)
  | data (bytes : String) (end_stream : Bool)
  | trailers
deriving DecidableEq, Repr

/-- One callback and what the filter manager does with its status.
Modelled from the spec: on `StopIterationAndBuffer` the manager appends the
chunk to the decoding buffer (section 4.5, "append to buffer"). -/
def step (h : Host) (f : Filter) : Call → Except Fault Filter
  | .headers content_type end_stream =>
    match decodeHeaders f content_type end_stream with
    | .error fault => .error fault
    | .ok (_, f1) => .ok f1
  | .data bytes end_stream =>
    match decodeData h f bytes end_stream with
    | .error fault => .error fault
    | .ok (.StopIterationAndBuffer, f1) => .ok (addDecodedData f1 bytes)
    | .ok (.Continue, f1) => .ok f1
  | .trailers =>
    match decodeTrailers h f with
    | .error fault => .error fault
    | .ok (_, f1) => .ok f1

/-- A sequence of callbacks: the state after each one, in order. -/
def runTrace (h : Host) : Filter → List Call → Except Fault (List Filter)
  | _, [] => .ok []
  | f, call :: rest =>
    match step h f call with
    | .error fault => .error fault
    | .ok f1 =>
      match runTrace h f1 rest with
      | .error fault => .error fault
      | .ok states => .ok (f1 :: states)

/-- A sequence of callbacks: the final state. -/
def run (h : Host) : Filter → List Call → Except Fault Filter
  | f, [] => .ok f
  | f, call :: rest =>
    match step h f call with
    | .error fault => .error fault
    | .ok f1 => run h f1 rest

/-- The sum of the four counters. -/
def Stats.total (s : Stats) : Nat :=
  s.rq_success_ + s.rq_no_body_ + s.rq_invalid_json_body_ + s.rq_mismatched_content_type_

/-- Whether the externally stored metadata holds `key` under `nspace`. -/
def storeContains (filter_metadata : StructMap) (nspace key : String) : Bool :=
  (lookupEntry filter_metadata nspace key).isSome

/-! ## Paths -/

/-- The node reached from `node` by one object lookup per key of `keys`. -/
def descend : Json → List String → Except StatusCode Json
  | node, [] => .ok node
  | node, key :: rest =>
    match getObjectNoThrow node key with
    | .error status => .error status
    | .ok next_node => descend next_node rest

/-- The same descent with the positions of the keys it looked up, the first
key standing at position `i`. -/
def descendFrom : Nat → Json → List String → List Nat × Except StatusCode Json
  | _, node, [] => ([], .ok node)
  | i, node, key :: rest =>
    match getObjectNoThrow node key with
    | .error status => ([i], .error status)
    | .ok next_node => (i :: (descendFrom (i + 1) next_node rest).1,
        (descendFrom (i + 1) next_node rest).2)

/-! ## Configuration load -/

/-- The constructor `FilterConfig::FilterConfig`, without the counters; an
`EnvoyException` of a rule is the error case. The value of `doRequest()`,
declared in `filter.h`, is an argument. -/
def FilterConfig.create (proto_config : ProtoConfig) (doRequest : Bool) :
    Except String FilterConfig :=
  match generateRequestRules proto_config.rules with
  | .error e => .error e
  | .ok rules =>
    .ok { request_rules_ := rules
          request_allow_content_types_ := generateRequestAllowContentTypes proto_config
          request_allow_empty_content_type_ := proto_config.allow_empty_content_type
          doRequest := doRequest }

/-! ## Writes -/

/-- One `applyKeyValue` call: the outcome it is made for and the value. -/
abbrev Write := KeyValuePair × ProtoValue

/-- The staged map after the `applyKeyValue` call of a write, or after none. -/
def stageWrite (filter_metadata : StructMap) : Option Write → StructMap → StructMap
  | none, struct_map => struct_map
  | some (keyval, value), struct_map => applyKeyValue filter_metadata value keyval struct_map

/-- The staged map after the `applyKeyValue` calls of a list of writes, in order. -/
def stageWrites (filter_metadata : StructMap) : List Write → StructMap → StructMap
  | [], struct_map => struct_map
  | write :: rest, struct_map =>
    stageWrites filter_metadata rest (stageWrite filter_metadata (some write) struct_map)

/-- Whether `addMetadata` lets the write through: not the case that
`preserve_existing_metadata_value` is set and the store holds the entry. -/
def writeApplied (filter_metadata : StructMap) (write : Write) : Bool :=
  !(write.1.preserve_existing_metadata_value &&
    storeContains filter_metadata (decideNamespace write.1.metadata_namespace) write.1.key)

/-- Whether the write targets the resolved namespace and key. -/
def writeTargets (nspace key : String) (write : Write) : Bool :=
  decide (decideNamespace write.1.metadata_namespace = nspace) && decide (write.1.key = key)

/-- The write `handleOnMissing` makes for a rule, if any. -/
def onMissingWrite (rule : Rule) : Option Write :=
  match rule.rule_.on_missing with
  | some on_missing => some (on_missing, on_missing.valueOrDefault)
  | none => none

/-- The write `handleAllOnError` makes for a rule, if any. -/
def onErrorWrite (rule : Rule) : Option Write :=
  match rule.rule_.on_error with
  | some on_error => some (on_error, on_error.valueOrDefault)
  | none => none

/-- The status `handleOnPresent` returns and the write it makes, if any. -/
def onPresentWrite (h : Host) (parent_node : Json) (key : String) (rule : Rule) :
    Except StatusCode (Option Write) :=
  match rule.rule_.on_present with
  | none => .ok none
  | some on_present_keyval =>
    match on_present_keyval.value with
    | some value => .ok (some (on_present_keyval, value))
    | none =>
      match getValue parent_node key with
      | .error status => .error status
      | .ok result =>
        match on_present_keyval.type with
        | .PROTOBUF_VALUE =>
          match JsonValueToProtobufValueConverter h result with
          | .ok value_result => .ok (some (on_present_keyval, value_result))
          | .error status => .error status
        | .NUMBER =>
          match JsonValueToDoubleConverter h result with
          | .ok double_result => .ok (some (on_present_keyval, .numberValue double_result))
          | .error status => .error status
        | .STRING =>
          let str := JsonValueToStringConverter h result
          if str.utf8ByteSize > h.maxPayloadValueLen then .error .invalidArgument
          else if str = "" then .ok none
          else .ok (some (on_present_keyval, .stringValue str))

/-- The write one pass of the rule loop of `processBody` makes for a rule, if
any. -/
def ruleWrite (h : Host) (body_json : Json) (rule : Rule) : Option Write :=
  match rule.keys_.getLast? with
  | none => none
  | some back =>
    match descend body_json rule.keys_.dropLast with
    | .error _ => onMissingWrite rule
    | .ok node =>
      match onPresentWrite h node back rule with
      | .ok write => write
      | .error _ => onMissingWrite rule

/-- A path the index loop of `processBody` can walk: at least one key, and a
length that fits `unsigned long`. -/
def Rule.walkable (rule : Rule) : Prop :=
  0 < rule.keys_.length ∧ rule.keys_.length < 2 ^ 64

instance (rule : Rule) : Decidable rule.walkable :=
  inferInstanceAs (Decidable (0 < rule.keys_.length ∧ rule.keys_.length < 2 ^ 64))

/-! ## Messages -/

/-- A data callback that does not end the stream. -/
def Call.isChunk : Call → Bool
  | .data _ false => true
  | _ => false

/-- A callback that ends the message: the last data chunk, or the trailers. -/
def Call.isEnd : Call → Bool
  | .data _ true => true
  | .trailers => true
  | _ => false

/-- A callback other than `decodeHeaders`. -/
def Call.isBodyCall : Call → Bool
  | .headers _ _ => false
  | _ => true

/-- Exactly one of the four counters went up, by one. -/
def Stats.oneIncrement (before after : Stats) : Prop :=
  after = { before with rq_success_ := before.rq_success_ + 1 } ∨
  after = { before with rq_no_body_ := before.rq_no_body_ + 1 } ∨
  after = { before with rq_invalid_json_body_ := before.rq_invalid_json_body_ + 1 } ∨
  after = { before with
    rq_mismatched_content_type_ := before.rq_mismatched_content_type_ + 1 }

/-! ## Decimal strings -/

/-- The number a string of decimal digits stands for. -/
def decimalValue (digits : List Char) : Nat :=
  digits.foldl (fun acc c => acc * 10 + (c.toNat - 48)) 0

/-- Whether a character is one of `0` to `9`. -/
def isDecimalDigit (c : Char) : Bool :=
  decide (48 ≤ c.toNat) && decide (c.toNat ≤ 57)

/-! ## Sample values -/

/-- A loader table: the parse of each body used in the examples below; any
other input is reported as a parse error. -/
def sampleLoad (bytes : String) : Except String (Option Json) :=
  if bytes = "\x7b\"a\":\x7b\"b\":\"42\"\x7d\x7d" then
    .ok (some (.object [("a", .object [("b", .string "42")])]))
  else if bytes = "\x7b\x7d" then .ok (some (.object []))
  else if bytes = "\x7b\"a\":9007199254740993\x7d" then
    .ok (some (.object [("a", .integer 9007199254740993)]))
  else if bytes = "\x7b\"a\":\"abc\"\x7d" then
    .ok (some (.object [("a", .string "abc")]))
  else if bytes = "\x7b\"a\":\"\"\x7d" then
    .ok (some (.object [("a", .string "")]))
  else if bytes = "\x7b\"a\":true\x7d" then
    .ok (some (.object [("a", .boolean true)]))
  else if bytes = "7" then .ok none
  else .error "not json"

/-- A parser table for `absl::SimpleAtod` on the strings used below. -/
def sampleAtod (s : String) : Option Dbl :=
  if s = "42" then some (.finite false 42 0)
  else if s = "3.5" then some (.finite false 7 (-1))
  else none

/-- A host with the tables above and a payload limit of 8192 bytes. -/
def sampleHost : Host :=
  { loadFromStringNoThrow := sampleLoad
    simpleAtod := sampleAtod
    doubleToString := fun _ => "0.000000"
    maxPayloadValueLen := 8192 }

/-- The same host with a payload limit of two bytes. -/
def smallHost : Host := { sampleHost with maxPayloadValueLen := 2 }

/-- An outcome in the default namespace. -/
def sampleKeyValue (key : String) (value : Option ProtoValue) (type : KeyValueType)
    (preserve : Bool) : KeyValuePair :=
  { metadata_namespace := ""
    key := key
    value := value
    type := type
    preserve_existing_metadata_value := preserve }

/-- A rule as `Rule::Rule` builds it from a path and its three outcomes. -/
def sampleRule (keys : List String) (on_present on_missing on_error : Option KeyValuePair) :
    Rule :=
  { rule_ := { selectors := keys, on_present := on_present, on_missing := on_missing,
               on_error := on_error }
    keys_ := keys }

/-- A fresh filter over the given rules and metadata store, accepting
`application/json` only. -/
def sampleFilter (rules : List Rule) (store : StructMap) : Filter :=
  { config_ :=
      { request_rules_ := rules
        request_allow_content_types_ := ["application/json"]
        request_allow_empty_content_type_ := false
        doRequest := true }
    stats_ := { rq_success_ := 0, rq_no_body_ := 0, rq_invalid_json_body_ := 0,
                rq_mismatched_content_type_ := 0 }
    request_processing_finished_ := false
    decodingBuffer := none
    dynamicMetadata := store
    setDynamicMetadataCalls := []
    clearRouteCacheCalls := 0
    finalizeCalls := [] }

/-- The state `finalizeDynamicMetadata` leaves when its assertion holds: the
flag set, the map recorded, and the store, the `setDynamicMetadata` calls and
the `clearRouteCache` count as the loop over the map leaves them. -/
def Filter.afterCommit (f : Filter) (struct_map : StructMap) : Filter :=
  { f with
    request_processing_finished_ := true
    finalizeCalls := f.finalizeCalls ++ [struct_map]
    dynamicMetadata := setAllDynamicMetadata f.dynamicMetadata struct_map
    setDynamicMetadataCalls := f.setDynamicMetadataCalls ++ struct_map
    clearRouteCacheCalls := f.clearRouteCacheCalls + (if struct_map.isEmpty then 0 else 1) }

/-! # Theorems -/

/-! ## Key/value lists -/

theorem assocFind_assocSet_same {β : Type} (m : List (String × β)) (name : String) (v : β) :
    assocFind (assocSet m name v) name = some v := by
  induction m with
  | nil => simp [assocSet, assocFind]
  | cons e rest ih =>
    obtain ⟨k, w⟩ := e
    by_cases hk : k = name
    · simp [assocSet, assocFind, hk]
    · simp [assocSet, assocFind, hk, ih]

theorem assocFind_assocSet_other {β : Type} (m : List (String × β)) (name other : String)
    (v : β) (hne : other ≠ name) :
    assocFind (assocSet m name v) other = assocFind m other := by
  induction m with
  | nil =>
    have hne2 : ¬ name = other := fun hEq => hne hEq.symm
    simp [assocSet, assocFind, hne2]
  | cons e rest ih =>
    obtain ⟨k, w⟩ := e
    by_cases hk : k = name
    · subst hk
      have hne2 : ¬ k = other := fun hEq => hne hEq.symm
      simp [assocSet, assocFind, hne2]
    · by_cases hko : k = other
      · subst hko
        simp [assocSet, assocFind, hk]
      · simp [assocSet, assocFind, hk, hko, ih]

theorem assocSet_ne_nil {β : Type} (m : List (String × β)) (name : String) (v : β) :
    assocSet m name v ≠ [] := by
  cases m with
  | nil => simp [assocSet]
  | cons e rest =>
    obtain ⟨k, w⟩ := e
    by_cases hk : k = name <;> simp [assocSet, hk]

/-! ## Facts about the metadata builder -/

theorem addMetadata_dropped (filter_metadata : StructMap) (nspace key : String)
    (val : ProtoValue) (struct_map : StructMap)
    (hc : storeContains filter_metadata nspace key = true) :
    addMetadata filter_metadata nspace key val true struct_map = (false, struct_map) := by
  unfold storeContains lookupEntry at hc
  unfold addMetadata
  cases hf : assocFind filter_metadata nspace with
  | none => simp [hf] at hc
  | some metadata =>
    rw [hf] at hc
    simp at hc
    simp [hc]

theorem addMetadata_written (filter_metadata : StructMap) (nspace key : String)
    (val : ProtoValue) (preserve : Bool) (struct_map : StructMap)
    (hc : ¬ (preserve = true ∧ storeContains filter_metadata nspace key = true)) :
    addMetadata filter_metadata nspace key val preserve struct_map =
      (true, assocSet struct_map nspace
        (assocSet ((assocFind struct_map nspace).getD []) key val)) := by
  unfold storeContains lookupEntry at hc
  unfold addMetadata
  cases hf : assocFind filter_metadata nspace with
  | none => simp
  | some metadata =>
    cases preserve with
    | false => simp
    | true =>
      rw [hf] at hc
      simp at hc
      simp [hc]

/-- C7. `addMetadata` reports false and leaves the staged map as it was exactly
when `preserve_existing_metadata_value` is set and the external store already
holds the key under the namespace; otherwise it reports true, the staged map
then holds the given value at that namespace and key, every other namespace
keeps its entry and every other key of the namespace keeps its value. -/
theorem addMetadata_preserve_or_write (filter_metadata : StructMap) (nspace key : String)
    (val : ProtoValue) (preserve : Bool) (struct_map : StructMap) :
    ((addMetadata filter_metadata nspace key val preserve struct_map).1 = false ↔
        (preserve = true ∧ storeContains filter_metadata nspace key = true)) ∧
    ((addMetadata filter_metadata nspace key val preserve struct_map).1 = false →
        (addMetadata filter_metadata nspace key val preserve struct_map).2 = struct_map) ∧
    ((addMetadata filter_metadata nspace key val preserve struct_map).1 = true →
        lookupEntry (addMetadata filter_metadata nspace key val preserve struct_map).2
            nspace key = some val ∧
        (∀ other : String, other ≠ nspace →
          assocFind (addMetadata filter_metadata nspace key val preserve struct_map).2 other
            = assocFind struct_map other) ∧
        (∀ other : String, other ≠ key →
          lookupEntry (addMetadata filter_metadata nspace key val preserve struct_map).2
              nspace other = lookupEntry struct_map nspace other)) := by
  by_cases hc : preserve = true ∧ storeContains filter_metadata nspace key = true
  · obtain ⟨hp, hs⟩ := hc
    subst hp
    rw [addMetadata_dropped filter_metadata nspace key val struct_map hs]
    simp [hs]
  · rw [addMetadata_written filter_metadata nspace key val preserve struct_map hc]
    refine ⟨by simp [hc], by simp, fun _ => ⟨?_, ?_, ?_⟩⟩
    · simp [lookupEntry, assocFind_assocSet_same]
    · intro other hne
      exact assocFind_assocSet_other struct_map nspace other _ hne
    · intro other hne
      simp only [lookupEntry, assocFind_assocSet_same]
      rw [assocFind_assocSet_other _ key other val hne]
      cases assocFind struct_map nspace <;> simp [assocFind]

/-! ## The path walk -/

theorem descendFrom_snd (i : Nat) (node : Json) (keys : List String) :
    (descendFrom i node keys).2 = descend node keys := by
  induction keys generalizing i node with
  | nil => simp [descendFrom, descend]
  | cons key rest ih =>
    cases hg : getObjectNoThrow node key with
    | error status => simp [descendFrom, descend, hg]
    | ok next_node => simp [descendFrom, descend, hg, ih]

theorem descendFrom_fst_of_ok (i : Nat) (node reached : Json) (keys : List String)
    (hd : descend node keys = .ok reached) :
    (descendFrom i node keys).1 = List.range' i keys.length := by
  induction keys generalizing i node with
  | nil => simp [descendFrom]
  | cons key rest ih =>
    cases hg : getObjectNoThrow node key with
    | error status => simp [descend, hg] at hd
    | ok next_node =>
      simp only [descend, hg] at hd
      simp [descendFrom, hg, ih (i + 1) next_node hd, List.range']

theorem descend_append_error (node reached : Json) (before after : List String) (key : String)
    (status : StatusCode) (hd : descend node before = .ok reached)
    (hg : getObjectNoThrow reached key = .error status) :
    descend node (before ++ key :: after) = .error status := by
  induction before generalizing node with
  | nil =>
    simp only [descend] at hd
    cases hd
    simp [descend, hg]
  | cons k rest ih =>
    cases hk : getObjectNoThrow node k with
    | error st => simp [descend, hk] at hd
    | ok next_node =>
      simp only [descend, hk] at hd
      simp [descend, hk, ih next_node hd]

theorem descendFrom_fst_of_error (i : Nat) (node reached : Json) (before after : List String)
    (key : String) (status : StatusCode) (hd : descend node before = .ok reached)
    (hg : getObjectNoThrow reached key = .error status) :
    (descendFrom i node (before ++ key :: after)).1 = List.range' i (before.length + 1) := by
  induction before generalizing i node with
  | nil =>
    simp only [descend] at hd
    cases hd
    simp [descendFrom, hg, List.range']
  | cons k rest ih =>
    cases hk : getObjectNoThrow node k with
    | error st => simp [descend, hk] at hd
    | ok next_node =>
      simp only [descend, hk] at hd
      simp [descendFrom, hk, ih (i + 1) next_node hd, List.range']

theorem walkKeys_eq_descendFrom (keys done todo : List String) (back : String) (node : Json)
    (hk : keys = done ++ todo ++ [back]) :
    walkKeys keys (done.length + todo.length) todo.length done.length node
      = .ok (descendFrom done.length node todo) := by
  induction todo generalizing done node with
  | nil => simp [walkKeys, descendFrom]
  | cons key rest ih =>
    have hget : keys[done.length]? = some key := by
      subst hk
      rw [List.append_assoc, List.getElem?_append_right (Nat.le_refl _)]
      simp
    have hk2 : keys = (done ++ [key]) ++ rest ++ [back] := by simp [hk]
    have hlt : done.length < done.length + (rest.length + 1) := by omega
    cases hg : getObjectNoThrow node key with
    | error status => simp [walkKeys, hget, hg, descendFrom]
    | ok next_node =>
      have ih2 := ih (done ++ [key]) next_node hk2
      simp only [List.length_append, List.length_singleton] at ih2
      have hb : done.length + 1 + rest.length = done.length + (rest.length + 1) := by omega
      rw [hb] at ih2
      simp [walkKeys, hget, hg, descendFrom, ih2]

theorem sizeMinusOne_eq (n : Nat) (hpos : 0 < n) (hlt : n < 2 ^ 64) :
    sizeMinusOne n = n - 1 := by
  unfold sizeMinusOne
  omega

/-! ## One rule -/

theorem processRule_eq (h : Host) (filter_metadata : StructMap) (body_json : Json)
    (rule : Rule) (struct_map : StructMap) (init : List String) (back : String)
    (hk : rule.keys_ = init ++ [back]) (hlt : rule.keys_.length < 2 ^ 64) :
    processRule h filter_metadata body_json rule struct_map =
      match descend body_json init with
      | .error _ => .ok (handleOnMissing filter_metadata rule struct_map)
      | .ok node =>
        match handleOnPresent h filter_metadata node back rule struct_map with
        | .error fault => .error fault
        | .ok (.ok _, staged) => .ok staged
        | .ok (.error _, staged) => .ok (handleOnMissing filter_metadata rule staged) := by
  have hlen : rule.keys_.length = init.length + 1 := by simp [hk]
  have hs : sizeMinusOne rule.keys_.length = init.length := by
    rw [sizeMinusOne_eq _ (by omega) hlt, hlen]
    rfl
  have hw := walkKeys_eq_descendFrom rule.keys_ [] init back body_json (by simpa using hk)
  simp only [List.length_nil, Nat.zero_add] at hw
  have hlast : rule.keys_.getLast? = some back := by simp [hk]
  unfold processRule
  simp only [hs, hw, hlast]
  rw [← descendFrom_snd 0 body_json init]
  rcases descendFrom 0 body_json init with ⟨visited, result⟩
  cases result with
  | error status => rfl
  | ok node => rfl

theorem handleOnPresent_no_fault (h : Host) (filter_metadata : StructMap) (parent_node : Json)
    (key : String) (rule : Rule) (struct_map : StructMap) :
    ∃ status staged, handleOnPresent h filter_metadata parent_node key rule struct_map
      = .ok (status, staged) := by
  unfold handleOnPresent
  cases hp : rule.rule_.on_present with
  | none => exact ⟨_, _, rfl⟩
  | some keyval =>
    simp only
    cases hv : keyval.value with
    | some value => exact ⟨_, _, rfl⟩
    | none =>
      simp only
      cases hg : getValue parent_node key with
      | error status => exact ⟨_, _, rfl⟩
      | ok result =>
        simp only
        cases ht : keyval.type with
        | PROTOBUF_VALUE =>
          simp only
          cases hc : JsonValueToProtobufValueConverter h result with
          | error status => exact ⟨_, _, rfl⟩
          | ok value_result => exact ⟨_, _, rfl⟩
        | NUMBER =>
          simp only
          cases hc : JsonValueToDoubleConverter h result with
          | error status => exact ⟨_, _, rfl⟩
          | ok double_result => exact ⟨_, _, rfl⟩
        | STRING =>
          simp only
          by_cases hlen :
              (JsonValueToStringConverter h result).utf8ByteSize > h.maxPayloadValueLen
          · simp only [hlen, if_true]
            exact ⟨_, _, rfl⟩
          · by_cases hempty : JsonValueToStringConverter h result = ""
            · simp only [hlen, if_false, hempty, if_true]
              exact ⟨_, _, rfl⟩
            · simp only [hlen, if_false, hempty, applyKeyValueString]
              exact ⟨_, _, rfl⟩

theorem processRule_no_fault (h : Host) (filter_metadata : StructMap) (body_json : Json)
    (rule : Rule) (struct_map : StructMap)
    (hpos : 0 < rule.keys_.length) (hlt : rule.keys_.length < 2 ^ 64) :
    ∃ staged, processRule h filter_metadata body_json rule struct_map = .ok staged := by
  have hne : rule.keys_ ≠ [] := by
    intro hnil
    rw [hnil] at hpos
    exact Nat.lt_irrefl 0 hpos
  have hk : rule.keys_ = rule.keys_.dropLast ++ [rule.keys_.getLast hne] :=
    (List.dropLast_append_getLast hne).symm
  rw [processRule_eq h filter_metadata body_json rule struct_map _ _ hk hlt]
  cases descend body_json rule.keys_.dropLast with
  | error status => exact ⟨_, rfl⟩
  | ok node =>
    obtain ⟨status, staged, hp⟩ := handleOnPresent_no_fault h filter_metadata node
      (rule.keys_.getLast hne) rule struct_map
    simp only [hp]
    cases status with
    | error st => exact ⟨_, rfl⟩
    | ok u => exact ⟨_, rfl⟩

/-- The precondition on a rule list: every path has at least one key and a
length that fits `unsigned long`. -/
theorem processRules_no_fault (h : Host) (filter_metadata : StructMap) (body_json : Json)
    (rules : List Rule) (struct_map : StructMap)
    (hwf : ∀ rule ∈ rules, 0 < rule.keys_.length ∧ rule.keys_.length < 2 ^ 64) :
    ∃ staged, processRules h filter_metadata body_json rules struct_map = .ok staged := by
  induction rules generalizing struct_map with
  | nil => exact ⟨_, rfl⟩
  | cons rule rest ih =>
    obtain ⟨staged, hs⟩ := processRule_no_fault h filter_metadata body_json rule struct_map
      (hwf rule (List.mem_cons_self _ _)).1 (hwf rule (List.mem_cons_self _ _)).2
    simp only [processRules, hs]
    exact ih staged (fun r hr => hwf r (List.mem_cons_of_mem _ hr))

/-! ## Writes of a pass -/

theorem handleOnMissing_eq_write (filter_metadata : StructMap) (rule : Rule)
    (struct_map : StructMap) :
    handleOnMissing filter_metadata rule struct_map
      = stageWrite filter_metadata (onMissingWrite rule) struct_map := by
  unfold handleOnMissing onMissingWrite
  cases rule.rule_.on_missing <;> rfl

theorem handleOnPresent_eq_write (h : Host) (filter_metadata : StructMap) (parent_node : Json)
    (key : String) (rule : Rule) (struct_map : StructMap) :
    handleOnPresent h filter_metadata parent_node key rule struct_map =
      .ok (match onPresentWrite h parent_node key rule with
        | .ok write => (.ok (), stageWrite filter_metadata write struct_map)
        | .error status => (.error status, struct_map)) := by
  unfold handleOnPresent onPresentWrite
  cases hp : rule.rule_.on_present with
  | none => rfl
  | some keyval =>
    simp only
    cases hv : keyval.value with
    | some value => rfl
    | none =>
      simp only
      cases hg : getValue parent_node key with
      | error status => rfl
      | ok result =>
        simp only
        cases ht : keyval.type with
        | PROTOBUF_VALUE =>
          simp only
          cases hc : JsonValueToProtobufValueConverter h result <;> rfl
        | NUMBER =>
          simp only
          cases hc : JsonValueToDoubleConverter h result <;> rfl
        | STRING =>
          simp only
          by_cases hlen :
              (JsonValueToStringConverter h result).utf8ByteSize > h.maxPayloadValueLen
          · simp only [hlen, if_true]
          · by_cases hempty : JsonValueToStringConverter h result = ""
            · simp only [hlen, if_false, hempty, if_true]
              rfl
            · simp only [hlen, if_false, hempty, applyKeyValueString]
              rfl

theorem processRule_eq_write (h : Host) (filter_metadata : StructMap) (body_json : Json)
    (rule : Rule) (struct_map : StructMap) (hwf : rule.walkable) :
    processRule h filter_metadata body_json rule struct_map
      = .ok (stageWrite filter_metadata (ruleWrite h body_json rule) struct_map) := by
  obtain ⟨hpos, hlt⟩ := hwf
  have hne : rule.keys_ ≠ [] := by
    intro hnil
    rw [hnil] at hpos
    exact Nat.lt_irrefl 0 hpos
  have hk : rule.keys_ = rule.keys_.dropLast ++ [rule.keys_.getLast hne] :=
    (List.dropLast_append_getLast hne).symm
  have hlast : rule.keys_.getLast? = some (rule.keys_.getLast hne) :=
    List.getLast?_eq_getLast _ hne
  rw [processRule_eq h filter_metadata body_json rule struct_map _ _ hk hlt]
  unfold ruleWrite
  rw [hlast]
  simp only
  cases descend body_json rule.keys_.dropLast with
  | error status => simp only [handleOnMissing_eq_write]
  | ok node =>
    simp only [handleOnPresent_eq_write]
    cases onPresentWrite h node (rule.keys_.getLast hne) rule with
    | error status => simp only [handleOnMissing_eq_write]
    | ok write => rfl

theorem processRules_eq_writes (h : Host) (filter_metadata : StructMap) (body_json : Json)
    (rules : List Rule) (struct_map : StructMap) (hwf : ∀ rule ∈ rules, rule.walkable) :
    processRules h filter_metadata body_json rules struct_map
      = .ok (stageWrites filter_metadata (rules.filterMap (ruleWrite h body_json))
          struct_map) := by
  induction rules generalizing struct_map with
  | nil => rfl
  | cons rule rest ih =>
    have hrest : ∀ r ∈ rest, r.walkable := fun r hr => hwf r (List.mem_cons_of_mem _ hr)
    simp only [processRules,
      processRule_eq_write h filter_metadata body_json rule struct_map
        (hwf rule (List.mem_cons_self _ _)), ih _ hrest]
    cases hw : ruleWrite h body_json rule with
    | none => simp [List.filterMap_cons, hw, stageWrite]
    | some write => simp [List.filterMap_cons, hw, stageWrites]

theorem processRules_append (h : Host) (filter_metadata : StructMap) (body_json : Json)
    (pre post : List Rule) (struct_map : StructMap) :
    processRules h filter_metadata body_json (pre ++ post) struct_map =
      match processRules h filter_metadata body_json pre struct_map with
      | .error fault => .error fault
      | .ok staged => processRules h filter_metadata body_json post staged := by
  induction pre generalizing struct_map with
  | nil => rfl
  | cons rule rest ih =>
    simp only [List.cons_append, processRules]
    cases processRule h filter_metadata body_json rule struct_map with
    | error fault => rfl
    | ok staged => exact ih staged

theorem stageAllOnMissing_eq_writes (filter_metadata : StructMap) (rules : List Rule)
    (struct_map : StructMap) :
    stageAllOnMissing filter_metadata rules struct_map
      = stageWrites filter_metadata (rules.filterMap onMissingWrite) struct_map := by
  induction rules generalizing struct_map with
  | nil => rfl
  | cons rule rest ih =>
    simp only [stageAllOnMissing, ih]
    cases hm : rule.rule_.on_missing with
    | none => simp [List.filterMap_cons, onMissingWrite, hm]
    | some keyval => simp [List.filterMap_cons, onMissingWrite, hm, stageWrites, stageWrite]

theorem stageAllOnError_eq_writes (filter_metadata : StructMap) (rules : List Rule)
    (struct_map : StructMap) :
    stageAllOnError filter_metadata rules struct_map
      = stageWrites filter_metadata (rules.filterMap onErrorWrite) struct_map := by
  induction rules generalizing struct_map with
  | nil => rfl
  | cons rule rest ih =>
    simp only [stageAllOnError, ih]
    cases hm : rule.rule_.on_error with
    | none => simp [List.filterMap_cons, onErrorWrite, hm]
    | some keyval => simp [List.filterMap_cons, onErrorWrite, hm, stageWrites, stageWrite]

/-! ## The commit and the body -/

theorem finalizeDynamicMetadata_ok (f : Filter) (struct_map : StructMap)
    (hflag : f.request_processing_finished_ = false) :
    finalizeDynamicMetadata f struct_map = .ok (f.afterCommit struct_map) := by
  unfold finalizeDynamicMetadata Filter.afterCommit
  cases struct_map with
  | nil => simp [hflag, setAllDynamicMetadata]
  | cons entry rest => simp [hflag]

theorem processBody_none (h : Host) (f : Filter) (rules : List Rule)
    (hflag : f.request_processing_finished_ = false) :
    processBody h f none rules
      = .ok (f.afterCommit (stageAllOnMissing f.dynamicMetadata rules [])).incNoBody := by
  simp only [processBody, handleAllOnMissing, finalizeDynamicMetadata_ok f _ hflag]

theorem processBody_empty (h : Host) (f : Filter) (bytes : String) (rules : List Rule)
    (hflag : f.request_processing_finished_ = false) (hlen : bytes.utf8ByteSize = 0) :
    processBody h f (some bytes) rules
      = .ok (f.afterCommit (stageAllOnMissing f.dynamicMetadata rules [])).incNoBody := by
  simp only [processBody, hlen, if_true, handleAllOnMissing,
    finalizeDynamicMetadata_ok f _ hflag]

theorem processBody_invalid (h : Host) (f : Filter) (bytes : String) (rules : List Rule)
    (message : String) (hflag : f.request_processing_finished_ = false)
    (hlen : bytes.utf8ByteSize ≠ 0) (hload : h.loadFromStringNoThrow bytes = .error message) :
    processBody h f (some bytes) rules
      = .ok (f.incInvalidJsonBody.afterCommit (stageAllOnError f.dynamicMetadata rules [])) := by
  have hflag2 : f.incInvalidJsonBody.request_processing_finished_ = false := hflag
  simp only [processBody, hlen, if_false, hload, handleAllOnError,
    finalizeDynamicMetadata_ok _ _ hflag2]
  rfl

theorem processBody_scalar (h : Host) (f : Filter) (bytes : String) (rules : List Rule)
    (hflag : f.request_processing_finished_ = false)
    (hlen : bytes.utf8ByteSize ≠ 0) (hload : h.loadFromStringNoThrow bytes = .ok none) :
    processBody h f (some bytes) rules
      = .ok (f.afterCommit (stageAllOnMissing f.dynamicMetadata rules [])).incSuccess := by
  simp only [processBody, hlen, if_false, hload, handleAllOnMissing,
    finalizeDynamicMetadata_ok f _ hflag]

theorem processBody_object (h : Host) (f : Filter) (bytes : String) (rules : List Rule)
    (body_json : Json) (hflag : f.request_processing_finished_ = false)
    (hlen : bytes.utf8ByteSize ≠ 0)
    (hload : h.loadFromStringNoThrow bytes = .ok (some body_json))
    (hwf : ∀ rule ∈ rules, rule.walkable) :
    processBody h f (some bytes) rules
      = .ok (f.incSuccess.afterCommit
          (stageWrites f.dynamicMetadata (rules.filterMap (ruleWrite h body_json)) [])) := by
  have hflag2 : f.incSuccess.request_processing_finished_ = false := hflag
  simp only [processBody, hlen, if_false, hload,
    processRules_eq_writes h f.dynamicMetadata body_json rules [] hwf,
    finalizeDynamicMetadata_ok _ _ hflag2]

theorem stageWrites_append (filter_metadata : StructMap) (first second : List Write)
    (struct_map : StructMap) :
    stageWrites filter_metadata (first ++ second) struct_map
      = stageWrites filter_metadata second (stageWrites filter_metadata first struct_map) := by
  induction first generalizing struct_map with
  | nil => rfl
  | cons write rest ih => exact ih _

theorem ruleWrite_eq (h : Host) (body_json : Json) (rule : Rule) (init : List String)
    (back : String) (hk : rule.keys_ = init ++ [back]) :
    ruleWrite h body_json rule =
      match descend body_json init with
      | .error _ => onMissingWrite rule
      | .ok node =>
        match onPresentWrite h node back rule with
        | .ok write => write
        | .error _ => onMissingWrite rule := by
  unfold ruleWrite
  simp [hk]

theorem filterMap_ruleWrite_split (h : Host) (body_json : Json) (pre post : List Rule)
    (rule : Rule) :
    (pre ++ rule :: post).filterMap (ruleWrite h body_json)
      = pre.filterMap (ruleWrite h body_json)
        ++ ((ruleWrite h body_json rule).toList ++ post.filterMap (ruleWrite h body_json)) := by
  rw [List.filterMap_append, List.filterMap_cons]
  cases ruleWrite h body_json rule <;> rfl

theorem stageWrites_toList (filter_metadata : StructMap) (write : Option Write)
    (rest : List Write) (struct_map : StructMap) :
    stageWrites filter_metadata (write.toList ++ rest) struct_map
      = stageWrites filter_metadata rest (stageWrite filter_metadata write struct_map) := by
  cases write <;> rfl

theorem processBody_rule_write (h : Host) (f : Filter) (bytes : String) (body_json : Json)
    (pre post : List Rule) (rule : Rule) (write : Option Write)
    (hflag : f.request_processing_finished_ = false)
    (hlen : bytes.utf8ByteSize ≠ 0)
    (hload : h.loadFromStringNoThrow bytes = .ok (some body_json))
    (hwf : ∀ r ∈ pre ++ rule :: post, r.walkable)
    (hw : ruleWrite h body_json rule = write) :
    ∃ staged_before staged f1,
      processRules h f.dynamicMetadata body_json pre [] = .ok staged_before ∧
      processRule h f.dynamicMetadata body_json rule staged_before
        = .ok (stageWrite f.dynamicMetadata write staged_before) ∧
      processRules h f.dynamicMetadata body_json post
        (stageWrite f.dynamicMetadata write staged_before) = .ok staged ∧
      processBody h f (some bytes) (pre ++ rule :: post) = .ok f1 ∧
      f1.finalizeCalls = f.finalizeCalls ++ [staged] ∧
      f1.stats_ = { f.stats_ with rq_success_ := f.stats_.rq_success_ + 1 } := by
  have hpre : ∀ r ∈ pre, r.walkable := fun r hr => hwf r (List.mem_append_left _ hr)
  have hrule : rule.walkable := hwf rule (List.mem_append_right _ (List.mem_cons_self _ _))
  have hpost : ∀ r ∈ post, r.walkable :=
    fun r hr => hwf r (List.mem_append_right _ (List.mem_cons_of_mem _ hr))
  refine ⟨_, _, _, processRules_eq_writes h f.dynamicMetadata body_json pre [] hpre, ?_,
    processRules_eq_writes h f.dynamicMetadata body_json post _ hpost,
    processBody_object h f bytes _ body_json hflag hlen hload hwf, ?_, rfl⟩
  · rw [processRule_eq_write h f.dynamicMetadata body_json rule _ hrule, hw]
  · simp only [Filter.afterCommit, Filter.incSuccess]
    rw [filterMap_ruleWrite_split, stageWrites_append, stageWrites_toList, hw]

/-! ## Numbers -/

theorem castInt64_exact (i : Int) (hsmall : i.natAbs < 2 ^ 53) :
    (castInt64 i).toRat = some (i : ℚ) := by
  unfold castInt64 roundToDouble
  simp only [hsmall, if_true, Dbl.toRat]
  by_cases hneg : i < 0
  · have h1 : (i.natAbs : ℤ) = -i := Int.ofNat_natAbs_of_nonpos (le_of_lt hneg)
    have h2 : (i.natAbs : ℚ) = -(i : ℚ) := by
      rw [← Int.cast_natCast, h1, Int.cast_neg]
    rw [h2]
    simp [hneg]
  · have h1 : (i.natAbs : ℤ) = i := Int.natAbs_of_nonneg (not_lt.mp hneg)
    have h2 : (i.natAbs : ℚ) = (i : ℚ) := by
      rw [← Int.cast_natCast, h1]
    rw [h2]
    simp [hneg]

theorem castInt64_rounds :
    castInt64 9007199254740993 = .finite false 4503599627370496 1 := by
  decide

theorem toRat_rounded :
    (Dbl.finite false 4503599627370496 1).toRat = some (9007199254740992 : ℚ) := by
  simp only [Dbl.toRat]
  norm_num

/-! ## One rule of an object body -/

/-- C1. For an object-rooted body and a rule whose intermediate keys all
resolve to objects, whose final key holds a scalar leaf that converts to a
number, and whose `on_present` has type `NUMBER` and no literal value: the rule
makes the `addMetadata` call for the resolved namespace, the key and that number
on the map staged by the rules before it, the map handed to the commit is what
the rules after it make of the result, and `rq_success` goes up by one. The
number is 0 or 1 for a `bool`, the exact value for an `int64_t` of magnitude
below `2^53`, the value itself for a `double`, and the `SimpleAtod` parse of the
trimmed text for a string. -/
theorem processBody_number_of_leaf (h : Host) (f : Filter) (bytes : String)
    (body_json : Json) (pre post : List Rule) (rule : Rule) (init : List String)
    (back : String) (node : Json) (leaf : ValueType) (keyval : KeyValuePair) (number : Dbl)
    (hflag : f.request_processing_finished_ = false)
    (hlen : bytes.utf8ByteSize ≠ 0)
    (hload : h.loadFromStringNoThrow bytes = .ok (some body_json))
    (hwf : ∀ r ∈ pre ++ rule :: post, r.walkable)
    (hkeys : rule.keys_ = init ++ [back])
    (hwalk : descend body_json init = .ok node)
    (hleaf : getValue node back = .ok leaf)
    (hpresent : rule.rule_.on_present = some keyval)
    (hliteral : keyval.value = none)
    (htype : keyval.type = .NUMBER)
    (hnumber : JsonValueToDoubleConverter h leaf = .ok number) :
    (∃ staged_before staged f1,
      processRules h f.dynamicMetadata body_json pre [] = .ok staged_before ∧
      processRule h f.dynamicMetadata body_json rule staged_before
        = .ok (addMetadata f.dynamicMetadata (decideNamespace keyval.metadata_namespace)
            keyval.key (.numberValue number) keyval.preserve_existing_metadata_value
            staged_before).2 ∧
      processRules h f.dynamicMetadata body_json post
        (addMetadata f.dynamicMetadata (decideNamespace keyval.metadata_namespace)
          keyval.key (.numberValue number) keyval.preserve_existing_metadata_value
          staged_before).2 = .ok staged ∧
      processBody h f (some bytes) (pre ++ rule :: post) = .ok f1 ∧
      f1.finalizeCalls = f.finalizeCalls ++ [staged] ∧
      f1.stats_ = { f.stats_ with rq_success_ := f.stats_.rq_success_ + 1 }) ∧
    (∀ b : Bool, leaf = .bool b → number = .finite false (if b then 1 else 0) 0) ∧
    (∀ i : Int, leaf = .int64 i → i.natAbs < 2 ^ 53 → number.toRat = some (i : ℚ)) ∧
    (∀ d : Dbl, leaf = .double d → number = d) ∧
    (∀ s : String, leaf = .string s → h.simpleAtod (trim s) = some number) := by
  have hw : ruleWrite h body_json rule = some (keyval, .numberValue number) := by
    rw [ruleWrite_eq h body_json rule init back hkeys, hwalk]
    simp only [onPresentWrite, hpresent, hliteral, hleaf, htype, hnumber]
  refine ⟨processBody_rule_write h f bytes body_json pre post rule _ hflag hlen hload hwf hw,
    ?_, ?_, ?_, ?_⟩
  · intro b hb
    subst hb
    simp only [JsonValueToDoubleConverter, castBool] at hnumber
    cases hnumber
    rfl
  · intro i hi hsmall
    subst hi
    simp only [JsonValueToDoubleConverter] at hnumber
    cases hnumber
    exact castInt64_exact i hsmall
  · intro d hd
    subst hd
    simp only [JsonValueToDoubleConverter] at hnumber
    cases hnumber
    rfl
  · intro s hs
    subst hs
    simp only [JsonValueToDoubleConverter] at hnumber
    cases hp : h.simpleAtod (trim s) with
    | none => simp [hp] at hnumber
    | some dval =>
      simp only [hp] at hnumber
      cases hnumber
      rfl

/-- The body `{"a":{"b":"42"}}` with the path `a`, `b` and type `NUMBER` commits
the number 42 and counts one `rq_success`; the text ` 3.5 ` is trimmed to
`3.5` before it is parsed. -/
theorem processBody_number_of_leaf_witness :
    (∃ f1,
      processBody sampleHost
        (sampleFilter
          [sampleRule ["a", "b"] (some (sampleKeyValue "answer" none .NUMBER false)) none none]
          [])
        (some "\x7b\"a\":\x7b\"b\":\"42\"\x7d\x7d")
        [sampleRule ["a", "b"] (some (sampleKeyValue "answer" none .NUMBER false)) none none]
        = .ok f1 ∧
      f1.finalizeCalls = [[("envoy.filters.http.json_to_metadata",
        [("answer", .numberValue (.finite false 42 0))])]] ∧
      f1.stats_ = { rq_success_ := 1, rq_no_body_ := 0, rq_invalid_json_body_ := 0,
                    rq_mismatched_content_type_ := 0 }) ∧
    trim " 3.5 " = "3.5" ∧
    JsonValueToDoubleConverter sampleHost (.string " 3.5 ") = .ok (.finite false 7 (-1)) := by
  refine ⟨?_, by decide, rfl⟩
  obtain ⟨⟨staged_before, staged, f1, hpre, _, hpost, hbody, hcalls, hstats⟩, _⟩ :=
    processBody_number_of_leaf sampleHost
      (sampleFilter
        [sampleRule ["a", "b"] (some (sampleKeyValue "answer" none .NUMBER false)) none none]
        [])
      "\x7b\"a\":\x7b\"b\":\"42\"\x7d\x7d"
      (.object [("a", .object [("b", .string "42")])]) [] []
      (sampleRule ["a", "b"] (some (sampleKeyValue "answer" none .NUMBER false)) none none)
      ["a"] "b" (.object [("b", .string "42")]) (.string "42")
      (sampleKeyValue "answer" none .NUMBER false) (.finite false 42 0)
      rfl (by decide) rfl (by decide) rfl rfl rfl rfl rfl rfl rfl
  cases hpre
  cases hpost
  exact ⟨f1, hbody, hcalls, hstats⟩

/-- The `int64_t` leaf 9007199254740993 (`2^53 + 1`) under type `NUMBER` is
committed as the double 9007199254740992: the number is not the value of the
leaf. -/
theorem processBody_number_int64_rounded :
    ∃ f1 number,
      processBody sampleHost
        (sampleFilter
          [sampleRule ["a"] (some (sampleKeyValue "n" none .NUMBER false)) none none] [])
        (some "\x7b\"a\":9007199254740993\x7d")
        [sampleRule ["a"] (some (sampleKeyValue "n" none .NUMBER false)) none none]
        = .ok f1 ∧
      getValue (.object [("a", .integer 9007199254740993)]) "a"
        = .ok (.int64 9007199254740993) ∧
      f1.finalizeCalls = [[("envoy.filters.http.json_to_metadata",
        [("n", .numberValue number)])]] ∧
      number.toRat = some (9007199254740992 : ℚ) ∧
      number.toRat ≠ some (9007199254740993 : ℚ) := by
  refine ⟨_, .finite false 4503599627370496 1, rfl, rfl, rfl, toRat_rounded, ?_⟩
  rw [toRat_rounded]
  norm_num

theorem walkKeys_path (keys init : List String) (back : String) (body_json : Json)
    (hk : keys = init ++ [back]) (hlt : keys.length < 2 ^ 64) :
    walkKeys keys (sizeMinusOne keys.length) (sizeMinusOne keys.length) 0 body_json
      = .ok (descendFrom 0 body_json init) := by
  have hlen : keys.length = init.length + 1 := by simp [hk]
  have hs : sizeMinusOne keys.length = init.length := by
    rw [sizeMinusOne_eq _ (by omega) hlt, hlen]
    rfl
  have hw := walkKeys_eq_descendFrom keys [] init back body_json (by simpa using hk)
  simp only [List.length_nil, Nat.zero_add] at hw
  rw [hs, hw]

theorem handleOnMissing_some (filter_metadata : StructMap) (rule : Rule)
    (struct_map : StructMap) (on_missing : KeyValuePair)
    (hm : rule.rule_.on_missing = some on_missing) :
    handleOnMissing filter_metadata rule struct_map =
      (addMetadata filter_metadata (decideNamespace on_missing.metadata_namespace)
        on_missing.key on_missing.valueOrDefault on_missing.preserve_existing_metadata_value
        struct_map).2 := by
  simp only [handleOnMissing, hm, applyKeyValue]

theorem handleOnMissing_none (filter_metadata : StructMap) (rule : Rule)
    (struct_map : StructMap) (hm : rule.rule_.on_missing = none) :
    handleOnMissing filter_metadata rule struct_map = struct_map := by
  simp only [handleOnMissing, hm]

/-- C2. For an object-rooted body and a rule with an intermediate key (any key
but the last) whose lookup fails after the keys before it resolved to objects:
the rule leaves the staged map as `handleOnMissing` makes it, which is the
`addMetadata` call of the `on_missing` literal when `on_missing` is set and the
map unchanged when it is not; neither `on_present` nor `on_error` is applied,
and the walk reads the keys up to the failed one and no later key. -/
theorem processBody_missing_intermediate (h : Host) (f : Filter) (bytes : String)
    (body_json : Json) (pre post : List Rule) (rule : Rule) (before mid : List String)
    (key back : String) (reached : Json) (status : StatusCode)
    (hflag : f.request_processing_finished_ = false)
    (hlen : bytes.utf8ByteSize ≠ 0)
    (hload : h.loadFromStringNoThrow bytes = .ok (some body_json))
    (hwf : ∀ r ∈ pre ++ rule :: post, r.walkable)
    (hkeys : rule.keys_ = before ++ key :: mid ++ [back])
    (hwalk : descend body_json before = .ok reached)
    (hmiss : getObjectNoThrow reached key = .error status) :
    (∃ staged_before staged f1,
      processRules h f.dynamicMetadata body_json pre [] = .ok staged_before ∧
      processRule h f.dynamicMetadata body_json rule staged_before
        = .ok (handleOnMissing f.dynamicMetadata rule staged_before) ∧
      processRules h f.dynamicMetadata body_json post
        (handleOnMissing f.dynamicMetadata rule staged_before) = .ok staged ∧
      processBody h f (some bytes) (pre ++ rule :: post) = .ok f1 ∧
      f1.finalizeCalls = f.finalizeCalls ++ [staged] ∧
      f1.stats_ = { f.stats_ with rq_success_ := f.stats_.rq_success_ + 1 }) ∧
    (∀ struct_map, rule.rule_.on_missing = none →
      handleOnMissing f.dynamicMetadata rule struct_map = struct_map) ∧
    (∀ struct_map on_missing, rule.rule_.on_missing = some on_missing →
      handleOnMissing f.dynamicMetadata rule struct_map =
        (addMetadata f.dynamicMetadata (decideNamespace on_missing.metadata_namespace)
          on_missing.key on_missing.valueOrDefault
          on_missing.preserve_existing_metadata_value struct_map).2) ∧
    walkKeys rule.keys_ (sizeMinusOne rule.keys_.length) (sizeMinusOne rule.keys_.length) 0
        body_json = .ok (List.range (before.length + 1), .error status) := by
  have hd : descend body_json (before ++ key :: mid) = .error status :=
    descend_append_error body_json reached before mid key status hwalk hmiss
  have hw : ruleWrite h body_json rule = onMissingWrite rule := by
    rw [ruleWrite_eq h body_json rule (before ++ key :: mid) back hkeys, hd]
  have hrule : rule.walkable := hwf rule (List.mem_append_right _ (List.mem_cons_self _ _))
  refine ⟨?_, fun sm hm => handleOnMissing_none _ rule sm hm,
    fun sm om hm => handleOnMissing_some _ rule sm om hm, ?_⟩
  · have hmain := processBody_rule_write h f bytes body_json pre post rule _ hflag hlen hload
      hwf hw
    simp only [← handleOnMissing_eq_write] at hmain
    exact hmain
  · rw [walkKeys_path rule.keys_ (before ++ key :: mid) back body_json hkeys hrule.2]
    have h1 := descendFrom_fst_of_error 0 body_json reached before mid key status hwalk hmiss
    have h2 := descendFrom_snd 0 body_json (before ++ key :: mid)
    rw [hd] at h2
    rw [List.range_eq_range', ← h1, ← h2]

/-- The body `{"a":{"b":"42"}}` with the path `x`, `b`, `c`: the lookup of `x`
fails, only index 0 is read, and the `on_missing` literal is committed. -/
theorem processBody_missing_intermediate_witness :
    (∃ f1,
      processBody sampleHost
        (sampleFilter
          [sampleRule ["x", "b", "c"] (some (sampleKeyValue "k" none .NUMBER false))
            (some (sampleKeyValue "k" (some (.stringValue "gone")) .STRING false))
            (some (sampleKeyValue "k" (some (.stringValue "err")) .STRING false))] [])
        (some "\x7b\"a\":\x7b\"b\":\"42\"\x7d\x7d")
        [sampleRule ["x", "b", "c"] (some (sampleKeyValue "k" none .NUMBER false))
            (some (sampleKeyValue "k" (some (.stringValue "gone")) .STRING false))
            (some (sampleKeyValue "k" (some (.stringValue "err")) .STRING false))]
        = .ok f1 ∧
      f1.finalizeCalls = [[("envoy.filters.http.json_to_metadata",
        [("k", .stringValue "gone")])]]) ∧
    walkKeys ["x", "b", "c"] (sizeMinusOne 3) (sizeMinusOne 3) 0
        (.object [("a", .object [("b", .string "42")])])
      = .ok ([0], .error .invalidArgument) := by
  obtain ⟨⟨staged_before, staged, f1, hpre, _, hpost, hbody, hcalls, _⟩, _, _, htrace⟩ :=
    processBody_missing_intermediate sampleHost
      (sampleFilter
        [sampleRule ["x", "b", "c"] (some (sampleKeyValue "k" none .NUMBER false))
          (some (sampleKeyValue "k" (some (.stringValue "gone")) .STRING false))
          (some (sampleKeyValue "k" (some (.stringValue "err")) .STRING false))] [])
      "\x7b\"a\":\x7b\"b\":\"42\"\x7d\x7d"
      (.object [("a", .object [("b", .string "42")])]) [] []
      (sampleRule ["x", "b", "c"] (some (sampleKeyValue "k" none .NUMBER false))
          (some (sampleKeyValue "k" (some (.stringValue "gone")) .STRING false))
          (some (sampleKeyValue "k" (some (.stringValue "err")) .STRING false)))
      [] ["b"] "x" "c" (.object [("a", .object [("b", .string "42")])]) .invalidArgument
      rfl (by decide) rfl (by decide) rfl rfl rfl
  cases hpre
  cases hpost
  exact ⟨⟨f1, hbody, hcalls⟩, htrace⟩

/-- C3. For a rule whose intermediate keys all resolve to objects and whose
final key is absent from the object reached: with an `on_present` that has no
literal value the rule leaves the staged map as `handleOnMissing` makes it, and
with no `on_present` at all `handleOnPresent` returns at once and the staged map
is left unchanged, whatever `on_missing` says. -/
theorem processRule_leaf_absent (h : Host) (filter_metadata : StructMap) (body_json : Json)
    (rule : Rule) (struct_map : StructMap) (init : List String) (back : String) (node : Json)
    (status : StatusCode)
    (hwf : rule.walkable)
    (hkeys : rule.keys_ = init ++ [back])
    (hwalk : descend body_json init = .ok node)
    (hleaf : getValue node back = .error status) :
    (∀ keyval, rule.rule_.on_present = some keyval → keyval.value = none →
      processRule h filter_metadata body_json rule struct_map
        = .ok (handleOnMissing filter_metadata rule struct_map)) ∧
    (rule.rule_.on_present = none →
      processRule h filter_metadata body_json rule struct_map = .ok struct_map) := by
  constructor
  · intro keyval hpresent hliteral
    have hw : ruleWrite h body_json rule = onMissingWrite rule := by
      rw [ruleWrite_eq h body_json rule init back hkeys, hwalk]
      simp only [onPresentWrite, hpresent, hliteral, hleaf]
    rw [processRule_eq_write h filter_metadata body_json rule struct_map hwf, hw,
      handleOnMissing_eq_write]
  · intro hpresent
    have hw : ruleWrite h body_json rule = none := by
      rw [ruleWrite_eq h body_json rule init back hkeys, hwalk]
      simp only [onPresentWrite, hpresent]
    rw [processRule_eq_write h filter_metadata body_json rule struct_map hwf, hw]
    rfl

/-- The body `{}` with the path `x` and only `on_missing` set to the literal
`fallback`: the rule stages nothing, the commit receives an empty map, the
store stays empty and `rq_success` is counted. With an `on_present` of type
`STRING` added to the rule, the literal is committed. -/
theorem processRule_leaf_absent_witness :
    processRule sampleHost [] (.object [])
        (sampleRule ["x"] none
          (some (sampleKeyValue "k" (some (.stringValue "fallback")) .STRING false)) none) []
      = .ok [] ∧
    (∃ f1,
      processBody sampleHost
        (sampleFilter
          [sampleRule ["x"] none
            (some (sampleKeyValue "k" (some (.stringValue "fallback")) .STRING false)) none]
          [])
        (some "\x7b\x7d")
        [sampleRule ["x"] none
            (some (sampleKeyValue "k" (some (.stringValue "fallback")) .STRING false)) none]
        = .ok f1 ∧
      f1.finalizeCalls = [[]] ∧ f1.dynamicMetadata = [] ∧
      f1.setDynamicMetadataCalls = [] ∧
      f1.stats_ = { rq_success_ := 1, rq_no_body_ := 0, rq_invalid_json_body_ := 0,
                    rq_mismatched_content_type_ := 0 }) ∧
    processRule sampleHost [] (.object [])
        (sampleRule ["x"] (some (sampleKeyValue "k" none .STRING false))
          (some (sampleKeyValue "k" (some (.stringValue "fallback")) .STRING false)) none) []
      = .ok [("envoy.filters.http.json_to_metadata", [("k", .stringValue "fallback")])] :=
  ⟨(processRule_leaf_absent sampleHost [] (.object [])
      (sampleRule ["x"] none
        (some (sampleKeyValue "k" (some (.stringValue "fallback")) .STRING false)) none) []
      [] "x" (.object []) .notFound (by decide) rfl rfl rfl).2 rfl,
    ⟨_, rfl, rfl, rfl, rfl, rfl⟩,
    (processRule_leaf_absent sampleHost [] (.object [])
      (sampleRule ["x"] (some (sampleKeyValue "k" none .STRING false))
        (some (sampleKeyValue "k" (some (.stringValue "fallback")) .STRING false)) none) []
      [] "x" (.object []) .notFound (by decide) rfl rfl rfl).1 _ rfl rfl⟩

/-- C4. For an object-rooted body and a rule whose path resolves to a scalar
leaf and whose `on_present` has no literal value: when the conversion to the
destination type fails (`NUMBER` or `PROTOBUF_VALUE` converter error, or a
`STRING` text longer than `MAX_PAYLOAD_VALUE_LEN`), the rule stages no
`on_present` entry and leaves the map as `handleOnMissing` makes it, `on_error`
is not applied, and the message counts `rq_success` and no other counter. A
string that `SimpleAtod` rejects fails the `NUMBER` conversion and a string
longer than the limit fails the other two. -/
theorem processBody_conversion_failure (h : Host) (f : Filter) (bytes : String)
    (body_json : Json) (pre post : List Rule) (rule : Rule) (init : List String)
    (back : String) (node : Json) (leaf : ValueType) (keyval : KeyValuePair)
    (hflag : f.request_processing_finished_ = false)
    (hlen : bytes.utf8ByteSize ≠ 0)
    (hload : h.loadFromStringNoThrow bytes = .ok (some body_json))
    (hwf : ∀ r ∈ pre ++ rule :: post, r.walkable)
    (hkeys : rule.keys_ = init ++ [back])
    (hwalk : descend body_json init = .ok node)
    (hleaf : getValue node back = .ok leaf)
    (hpresent : rule.rule_.on_present = some keyval)
    (hliteral : keyval.value = none)
    (hfail :
      (keyval.type = .NUMBER ∧ ∃ status, JsonValueToDoubleConverter h leaf = .error status) ∨
      (keyval.type = .PROTOBUF_VALUE ∧
        ∃ status, JsonValueToProtobufValueConverter h leaf = .error status) ∨
      (keyval.type = .STRING ∧
        (JsonValueToStringConverter h leaf).utf8ByteSize > h.maxPayloadValueLen)) :
    (∃ staged_before staged f1,
      processRules h f.dynamicMetadata body_json pre [] = .ok staged_before ∧
      processRule h f.dynamicMetadata body_json rule staged_before
        = .ok (handleOnMissing f.dynamicMetadata rule staged_before) ∧
      processRules h f.dynamicMetadata body_json post
        (handleOnMissing f.dynamicMetadata rule staged_before) = .ok staged ∧
      processBody h f (some bytes) (pre ++ rule :: post) = .ok f1 ∧
      f1.finalizeCalls = f.finalizeCalls ++ [staged] ∧
      f1.stats_ = { f.stats_ with rq_success_ := f.stats_.rq_success_ + 1 }) ∧
    (∀ struct_map, rule.rule_.on_missing = none →
      handleOnMissing f.dynamicMetadata rule struct_map = struct_map) ∧
    (∀ struct_map on_missing, rule.rule_.on_missing = some on_missing →
      handleOnMissing f.dynamicMetadata rule struct_map =
        (addMetadata f.dynamicMetadata (decideNamespace on_missing.metadata_namespace)
          on_missing.key on_missing.valueOrDefault
          on_missing.preserve_existing_metadata_value struct_map).2) ∧
    (∀ s : String, h.simpleAtod (trim s) = none →
      JsonValueToDoubleConverter h (.string s) = .error .internal) ∧
    (∀ s : String, s.utf8ByteSize > h.maxPayloadValueLen →
      JsonValueToProtobufValueConverter h (.string s) = .error .internal ∧
      (JsonValueToStringConverter h (.string s)).utf8ByteSize > h.maxPayloadValueLen) := by
  have hw : ruleWrite h body_json rule = onMissingWrite rule := by
    rw [ruleWrite_eq h body_json rule init back hkeys, hwalk]
    rcases hfail with ⟨ht, status, hc⟩ | ⟨ht, status, hc⟩ | ⟨ht, hc⟩
    · simp only [onPresentWrite, hpresent, hliteral, hleaf, ht, hc]
    · simp only [onPresentWrite, hpresent, hliteral, hleaf, ht, hc]
    · simp only [onPresentWrite, hpresent, hliteral, hleaf, ht, hc, if_true]
  refine ⟨?_, fun sm hm => handleOnMissing_none _ rule sm hm,
    fun sm om hm => handleOnMissing_some _ rule sm om hm, ?_, ?_⟩
  · have hmain := processBody_rule_write h f bytes body_json pre post rule _ hflag hlen hload
      hwf hw
    simp only [← handleOnMissing_eq_write] at hmain
    exact hmain
  · intro s hs
    simp only [JsonValueToDoubleConverter, hs]
  · intro s hs
    exact ⟨by simp only [JsonValueToProtobufValueConverter, hs, if_true], hs⟩

/-- The body `{"a":"abc"}` with type `NUMBER`: `abc` is no number, the
`on_missing` literal is committed, the `on_error` literal is not, and only
`rq_success` is counted. -/
theorem processBody_conversion_failure_witness :
    ∃ f1,
      processBody sampleHost
        (sampleFilter
          [sampleRule ["a"] (some (sampleKeyValue "k" none .NUMBER false))
            (some (sampleKeyValue "k" (some (.stringValue "gone")) .STRING false))
            (some (sampleKeyValue "k" (some (.stringValue "err")) .STRING false))] [])
        (some "\x7b\"a\":\"abc\"\x7d")
        [sampleRule ["a"] (some (sampleKeyValue "k" none .NUMBER false))
            (some (sampleKeyValue "k" (some (.stringValue "gone")) .STRING false))
            (some (sampleKeyValue "k" (some (.stringValue "err")) .STRING false))]
        = .ok f1 ∧
      f1.finalizeCalls = [[("envoy.filters.http.json_to_metadata",
        [("k", .stringValue "gone")])]] ∧
      f1.stats_ = { rq_success_ := 1, rq_no_body_ := 0, rq_invalid_json_body_ := 0,
                    rq_mismatched_content_type_ := 0 } := by
  obtain ⟨⟨staged_before, staged, f1, hpre, _, hpost, hbody, hcalls, hstats⟩, _⟩ :=
    processBody_conversion_failure sampleHost
      (sampleFilter
        [sampleRule ["a"] (some (sampleKeyValue "k" none .NUMBER false))
          (some (sampleKeyValue "k" (some (.stringValue "gone")) .STRING false))
          (some (sampleKeyValue "k" (some (.stringValue "err")) .STRING false))] [])
      "\x7b\"a\":\"abc\"\x7d" (.object [("a", .string "abc")]) [] []
      (sampleRule ["a"] (some (sampleKeyValue "k" none .NUMBER false))
          (some (sampleKeyValue "k" (some (.stringValue "gone")) .STRING false))
          (some (sampleKeyValue "k" (some (.stringValue "err")) .STRING false)))
      [] "a" (.object [("a", .string "abc")]) (.string "abc")
      (sampleKeyValue "k" none .NUMBER false)
      rfl (by decide) rfl (by decide) rfl rfl rfl rfl rfl
      (Or.inl ⟨rfl, .internal, rfl⟩)
  cases hpre
  cases hpost
  exact ⟨f1, hbody, hcalls, hstats⟩

/-- C11. For an object-rooted body and a rule whose path resolves to a scalar
leaf, whose `on_present` has type `STRING` and no literal value, and whose leaf
converts to the empty string: the rule leaves the staged map unchanged, so
neither `on_missing` nor `on_error` is applied, and the message counts
`rq_success`. -/
theorem processBody_empty_string_skipped (h : Host) (f : Filter) (bytes : String)
    (body_json : Json) (pre post : List Rule) (rule : Rule) (init : List String)
    (back : String) (node : Json) (leaf : ValueType) (keyval : KeyValuePair)
    (hflag : f.request_processing_finished_ = false)
    (hlen : bytes.utf8ByteSize ≠ 0)
    (hload : h.loadFromStringNoThrow bytes = .ok (some body_json))
    (hwf : ∀ r ∈ pre ++ rule :: post, r.walkable)
    (hkeys : rule.keys_ = init ++ [back])
    (hwalk : descend body_json init = .ok node)
    (hleaf : getValue node back = .ok leaf)
    (hpresent : rule.rule_.on_present = some keyval)
    (hliteral : keyval.value = none)
    (htype : keyval.type = .STRING)
    (hempty : JsonValueToStringConverter h leaf = "") :
    ∃ staged_before staged f1,
      processRules h f.dynamicMetadata body_json pre [] = .ok staged_before ∧
      processRule h f.dynamicMetadata body_json rule staged_before = .ok staged_before ∧
      processRules h f.dynamicMetadata body_json post staged_before = .ok staged ∧
      processBody h f (some bytes) (pre ++ rule :: post) = .ok f1 ∧
      f1.finalizeCalls = f.finalizeCalls ++ [staged] ∧
      f1.stats_ = { f.stats_ with rq_success_ := f.stats_.rq_success_ + 1 } := by
  have hzero : ¬ ("".utf8ByteSize > h.maxPayloadValueLen) := by
    have h0 : "".utf8ByteSize = 0 := by decide
    rw [h0]
    exact Nat.not_lt_zero _
  have hw : ruleWrite h body_json rule = none := by
    rw [ruleWrite_eq h body_json rule init back hkeys, hwalk]
    simp only [onPresentWrite, hpresent, hliteral, hleaf, htype, hempty, hzero, if_false,
      if_true]
  exact processBody_rule_write h f bytes body_json pre post rule none hflag hlen hload hwf hw

/-- The body `{"a":""}` with type `STRING`, with `on_missing` and `on_error`
literals configured: the commit receives an empty map and `rq_success` is
counted. -/
theorem processBody_empty_string_skipped_witness :
    ∃ f1,
      processBody sampleHost
        (sampleFilter
          [sampleRule ["a"] (some (sampleKeyValue "k" none .STRING false))
            (some (sampleKeyValue "k" (some (.stringValue "gone")) .STRING false))
            (some (sampleKeyValue "k" (some (.stringValue "err")) .STRING false))] [])
        (some "\x7b\"a\":\"\"\x7d")
        [sampleRule ["a"] (some (sampleKeyValue "k" none .STRING false))
            (some (sampleKeyValue "k" (some (.stringValue "gone")) .STRING false))
            (some (sampleKeyValue "k" (some (.stringValue "err")) .STRING false))]
        = .ok f1 ∧
      f1.finalizeCalls = [[]] ∧
      f1.stats_ = { rq_success_ := 1, rq_no_body_ := 0, rq_invalid_json_body_ := 0,
                    rq_mismatched_content_type_ := 0 } := by
  obtain ⟨staged_before, staged, f1, hpre, _, hpost, hbody, hcalls, hstats⟩ :=
    processBody_empty_string_skipped sampleHost
      (sampleFilter
        [sampleRule ["a"] (some (sampleKeyValue "k" none .STRING false))
          (some (sampleKeyValue "k" (some (.stringValue "gone")) .STRING false))
          (some (sampleKeyValue "k" (some (.stringValue "err")) .STRING false))] [])
      "\x7b\"a\":\"\"\x7d" (.object [("a", .string "")]) [] []
      (sampleRule ["a"] (some (sampleKeyValue "k" none .STRING false))
          (some (sampleKeyValue "k" (some (.stringValue "gone")) .STRING false))
          (some (sampleKeyValue "k" (some (.stringValue "err")) .STRING false)))
      [] "a" (.object [("a", .string "")]) (.string "")
      (sampleKeyValue "k" none .STRING false)
      rfl (by decide) rfl (by decide) rfl rfl rfl rfl rfl rfl rfl
  cases hpre
  cases hpost
  exact ⟨f1, hbody, hcalls, hstats⟩

/-- C19. For an object-rooted body and a rule whose intermediate keys all
resolve to objects and whose `on_present` carries a literal value: the rule
makes the `addMetadata` call of the literal, whatever the final key holds in the
object reached, so the result is the same for every body on which the
intermediate keys resolve, and `on_missing` is not applied. -/
theorem processBody_literal_on_present (h : Host) (f : Filter) (bytes : String)
    (body_json : Json) (pre post : List Rule) (rule : Rule) (init : List String)
    (back : String) (node : Json) (keyval : KeyValuePair) (value : ProtoValue)
    (hflag : f.request_processing_finished_ = false)
    (hlen : bytes.utf8ByteSize ≠ 0)
    (hload : h.loadFromStringNoThrow bytes = .ok (some body_json))
    (hwf : ∀ r ∈ pre ++ rule :: post, r.walkable)
    (hkeys : rule.keys_ = init ++ [back])
    (hwalk : descend body_json init = .ok node)
    (hpresent : rule.rule_.on_present = some keyval)
    (hliteral : keyval.value = some value) :
    (∃ staged_before staged f1,
      processRules h f.dynamicMetadata body_json pre [] = .ok staged_before ∧
      processRule h f.dynamicMetadata body_json rule staged_before
        = .ok (addMetadata f.dynamicMetadata (decideNamespace keyval.metadata_namespace)
            keyval.key value keyval.preserve_existing_metadata_value staged_before).2 ∧
      processRules h f.dynamicMetadata body_json post
        (addMetadata f.dynamicMetadata (decideNamespace keyval.metadata_namespace)
          keyval.key value keyval.preserve_existing_metadata_value staged_before).2
        = .ok staged ∧
      processBody h f (some bytes) (pre ++ rule :: post) = .ok f1 ∧
      f1.finalizeCalls = f.finalizeCalls ++ [staged] ∧
      f1.stats_ = { f.stats_ with rq_success_ := f.stats_.rq_success_ + 1 }) ∧
    (∀ (other_body other_node : Json) (struct_map : StructMap),
      descend other_body init = .ok other_node →
      processRule h f.dynamicMetadata other_body rule struct_map
        = .ok (addMetadata f.dynamicMetadata (decideNamespace keyval.metadata_namespace)
            keyval.key value keyval.preserve_existing_metadata_value struct_map).2) := by
  have hany : ∀ (other_body other_node : Json), descend other_body init = .ok other_node →
      ruleWrite h other_body rule = some (keyval, value) := by
    intro other_body other_node hd
    rw [ruleWrite_eq h other_body rule init back hkeys, hd]
    simp only [onPresentWrite, hpresent, hliteral]
  have hrule : rule.walkable := hwf rule (List.mem_append_right _ (List.mem_cons_self _ _))
  refine ⟨processBody_rule_write h f bytes body_json pre post rule _ hflag hlen hload hwf
    (hany body_json node hwalk), ?_⟩
  intro other_body other_node struct_map hd
  rw [processRule_eq_write h f.dynamicMetadata other_body rule struct_map hrule,
    hany other_body other_node hd]
  rfl

/-- The body `{}` with the path `x` and an `on_present` literal: the final key
is absent, the `on_present` literal is committed and the `on_missing` literal is
not. -/
theorem processBody_literal_on_present_witness :
    ∃ f1,
      processBody sampleHost
        (sampleFilter
          [sampleRule ["x"] (some (sampleKeyValue "k" (some (.stringValue "fixed")) .STRING false))
            (some (sampleKeyValue "k" (some (.stringValue "gone")) .STRING false)) none] [])
        (some "\x7b\x7d")
        [sampleRule ["x"] (some (sampleKeyValue "k" (some (.stringValue "fixed")) .STRING false))
            (some (sampleKeyValue "k" (some (.stringValue "gone")) .STRING false)) none]
        = .ok f1 ∧
      getValue (.object []) "x" = .error .notFound ∧
      f1.finalizeCalls = [[("envoy.filters.http.json_to_metadata",
        [("k", .stringValue "fixed")])]] := by
  obtain ⟨⟨staged_before, staged, f1, hpre, _, hpost, hbody, hcalls, _⟩, _⟩ :=
    processBody_literal_on_present sampleHost
      (sampleFilter
        [sampleRule ["x"] (some (sampleKeyValue "k" (some (.stringValue "fixed")) .STRING false))
          (some (sampleKeyValue "k" (some (.stringValue "gone")) .STRING false)) none] [])
      "\x7b\x7d" (.object []) [] []
      (sampleRule ["x"] (some (sampleKeyValue "k" (some (.stringValue "fixed")) .STRING false))
          (some (sampleKeyValue "k" (some (.stringValue "gone")) .STRING false)) none)
      [] "x" (.object [])
      (sampleKeyValue "k" (some (.stringValue "fixed")) .STRING false) (.stringValue "fixed")
      rfl (by decide) rfl (by decide) rfl rfl rfl rfl
  cases hpre
  cases hpost
  exact ⟨f1, hbody, rfl, hcalls⟩

/-! ## The stream state machine -/

theorem handleAllOnMissing_ok (f : Filter) (rules : List Rule)
    (hflag : f.request_processing_finished_ = false) :
    handleAllOnMissing f rules
      = .ok (f.afterCommit (stageAllOnMissing f.dynamicMetadata rules [])) := by
  simp only [handleAllOnMissing, finalizeDynamicMetadata_ok f _ hflag]

theorem processBody_done (h : Host) (f : Filter) (body : Option String) (rules : List Rule)
    (hflag : f.request_processing_finished_ = false) (hwf : ∀ rule ∈ rules, rule.walkable) :
    ∃ f1, processBody h f body rules = .ok f1 ∧ f1.request_processing_finished_ = true ∧
      f1.config_ = f.config_ ∧ Stats.oneIncrement f.stats_ f1.stats_ ∧
      f1.finalizeCalls.length = f.finalizeCalls.length + 1 := by
  cases body with
  | none =>
    exact ⟨_, processBody_none h f rules hflag, rfl, rfl, Or.inr (Or.inl rfl),
      by simp [Filter.afterCommit, Filter.incNoBody]⟩
  | some bytes =>
    by_cases hlen : bytes.utf8ByteSize = 0
    · exact ⟨_, processBody_empty h f bytes rules hflag hlen, rfl, rfl, Or.inr (Or.inl rfl),
        by simp [Filter.afterCommit, Filter.incNoBody]⟩
    · cases hload : h.loadFromStringNoThrow bytes with
      | error message =>
        exact ⟨_, processBody_invalid h f bytes rules message hflag hlen hload, rfl, rfl,
          Or.inr (Or.inr (Or.inl rfl)),
          by simp [Filter.afterCommit, Filter.incInvalidJsonBody]⟩
      | ok root =>
        cases root with
        | none =>
          exact ⟨_, processBody_scalar h f bytes rules hflag hlen hload, rfl, rfl, Or.inl rfl,
            by simp [Filter.afterCommit, Filter.incSuccess]⟩
        | some body_json =>
          exact ⟨_, processBody_object h f bytes rules body_json hflag hlen hload hwf, rfl,
            rfl, Or.inl rfl, by simp [Filter.afterCommit, Filter.incSuccess]⟩

theorem decodeHeaders_rejected (f : Filter) (content_type : String) (end_stream : Bool)
    (hdo : f.config_.doRequest = true)
    (hgate : requestContentTypeAllowed f.config_ content_type = false) :
    decodeHeaders f content_type end_stream = .ok (.Continue,
      ({ f with request_processing_finished_ := true } : Filter).incMismatchedContentType) := by
  simp [decodeHeaders, hdo, hgate]

theorem decodeHeaders_no_body (f : Filter) (content_type : String)
    (hdo : f.config_.doRequest = true)
    (hflag : f.request_processing_finished_ = false)
    (hgate : requestContentTypeAllowed f.config_ content_type = true) :
    decodeHeaders f content_type true = .ok (.Continue,
      (f.afterCommit
        (stageAllOnMissing f.dynamicMetadata f.config_.request_rules_ [])).incNoBody) := by
  simp [decodeHeaders, hdo, hgate, handleAllOnMissing_ok f _ hflag]

theorem decodeHeaders_wait (f : Filter) (content_type : String)
    (hdo : f.config_.doRequest = true)
    (hgate : requestContentTypeAllowed f.config_ content_type = true) :
    decodeHeaders f content_type false = .ok (.StopIteration, f) := by
  simp [decodeHeaders, hdo, hgate]

theorem decodeData_done (h : Host) (f : Filter) (data : String) (end_stream : Bool)
    (hdo : f.config_.doRequest = true) (hflag : f.request_processing_finished_ = true) :
    decodeData h f data end_stream = .ok (.Continue, f) := by
  simp [decodeData, hdo, hflag]

theorem decodeTrailers_done (h : Host) (f : Filter)
    (hdo : f.config_.doRequest = true) (hflag : f.request_processing_finished_ = true) :
    decodeTrailers h f = .ok (.Continue, f) := by
  simp [decodeTrailers, hdo, hflag]

theorem decodeData_chunk (h : Host) (f : Filter) (data : String)
    (hdo : f.config_.doRequest = true) (hflag : f.request_processing_finished_ = false) :
    decodeData h f data false = .ok (.StopIterationAndBuffer, f) := by
  simp [decodeData, hdo, hflag]

theorem decodeData_end (h : Host) (f : Filter) (data : String)
    (hdo : f.config_.doRequest = true) (hflag : f.request_processing_finished_ = false)
    (hwf : ∀ rule ∈ f.config_.request_rules_, rule.walkable) :
    ∃ f1, decodeData h f data true = .ok (.Continue, f1) ∧
      f1.request_processing_finished_ = true ∧ f1.config_ = f.config_ ∧
      Stats.oneIncrement f.stats_ f1.stats_ ∧
      f1.finalizeCalls.length = f.finalizeCalls.length + 1 := by
  have hflag1 : (addDecodedData f data).request_processing_finished_ = false := hflag
  have hwf1 : ∀ rule ∈ (addDecodedData f data).config_.request_rules_, rule.walkable := hwf
  by_cases hbuf : (match (addDecodedData f data).decodingBuffer with
      | none => true
      | some buffer => decide (buffer.utf8ByteSize = 0)) = true
  · refine ⟨((addDecodedData f data).afterCommit (stageAllOnMissing
        (addDecodedData f data).dynamicMetadata (addDecodedData f data).config_.request_rules_
        [])).incNoBody, ?_, rfl, rfl, Or.inr (Or.inl rfl), ?_⟩
    · simp only [decodeData, hdo, hflag, hbuf, handleAllOnMissing_ok _ _ hflag1]
      simp
    · simp [Filter.afterCommit, Filter.incNoBody, addDecodedData]
  · obtain ⟨f1, hbody, hdone, hcfg, hinc, hcalls⟩ := processBody_done h (addDecodedData f data)
      (addDecodedData f data).decodingBuffer (addDecodedData f data).config_.request_rules_
      hflag1 hwf1
    refine ⟨f1, ?_, hdone, hcfg, hinc, hcalls⟩
    simp only [decodeData, hdo, hflag, hbuf, processRequestBody, hbody]
    simp

theorem decodeTrailers_end (h : Host) (f : Filter)
    (hdo : f.config_.doRequest = true) (hflag : f.request_processing_finished_ = false)
    (hwf : ∀ rule ∈ f.config_.request_rules_, rule.walkable) :
    ∃ f1, decodeTrailers h f = .ok (.Continue, f1) ∧
      f1.request_processing_finished_ = true ∧ f1.config_ = f.config_ ∧
      Stats.oneIncrement f.stats_ f1.stats_ ∧
      f1.finalizeCalls.length = f.finalizeCalls.length + 1 := by
  obtain ⟨f1, hbody, hdone, hcfg, hinc, hcalls⟩ := processBody_done h f f.decodingBuffer
    f.config_.request_rules_ hflag hwf
  refine ⟨f1, ?_, hdone, hcfg, hinc, hcalls⟩
  simp [decodeTrailers, hdo, hflag, processRequestBody, hbody]

theorem step_done (h : Host) (f : Filter) (call : Call)
    (hdo : f.config_.doRequest = true) (hflag : f.request_processing_finished_ = true)
    (hcall : call.isBodyCall = true) :
    step h f call = .ok f := by
  cases call with
  | headers content_type end_stream => simp [Call.isBodyCall] at hcall
  | data bytes end_stream => simp [step, decodeData_done h f bytes end_stream hdo hflag]
  | trailers => simp [step, decodeTrailers_done h f hdo hflag]

theorem step_chunk (h : Host) (f : Filter) (call : Call)
    (hdo : f.config_.doRequest = true) (hflag : f.request_processing_finished_ = false)
    (hcall : call.isChunk = true) :
    ∃ bytes, step h f call = .ok (addDecodedData f bytes) := by
  cases call with
  | headers content_type end_stream => simp [Call.isChunk] at hcall
  | trailers => simp [Call.isChunk] at hcall
  | data bytes end_stream =>
    cases end_stream with
    | true => simp [Call.isChunk] at hcall
    | false => exact ⟨bytes, by simp [step, decodeData_chunk h f bytes hdo hflag]⟩

theorem step_end (h : Host) (f : Filter) (call : Call)
    (hdo : f.config_.doRequest = true) (hflag : f.request_processing_finished_ = false)
    (hwf : ∀ rule ∈ f.config_.request_rules_, rule.walkable)
    (hcall : call.isEnd = true) :
    ∃ f1, step h f call = .ok f1 ∧
      f1.request_processing_finished_ = true ∧ f1.config_ = f.config_ ∧
      Stats.oneIncrement f.stats_ f1.stats_ ∧
      f1.finalizeCalls.length = f.finalizeCalls.length + 1 := by
  cases call with
  | headers content_type end_stream => simp [Call.isEnd] at hcall
  | trailers =>
    obtain ⟨f1, hstep, hrest⟩ := decodeTrailers_end h f hdo hflag hwf
    exact ⟨f1, by simp [step, hstep], hrest⟩
  | data bytes end_stream =>
    cases end_stream with
    | false => simp [Call.isEnd] at hcall
    | true =>
      obtain ⟨f1, hstep, hrest⟩ := decodeData_end h f bytes hdo hflag hwf
      exact ⟨f1, by simp [step, hstep], hrest⟩

theorem run_append (h : Host) (f : Filter) (first second : List Call) :
    run h f (first ++ second) =
      match run h f first with
      | .error fault => .error fault
      | .ok f1 => run h f1 second := by
  induction first generalizing f with
  | nil => rfl
  | cons call rest ih =>
    simp only [List.cons_append, run]
    cases step h f call with
    | error fault => rfl
    | ok f1 => exact ih f1

theorem run_done (h : Host) (f : Filter) (calls : List Call)
    (hdo : f.config_.doRequest = true) (hflag : f.request_processing_finished_ = true)
    (hcalls : ∀ call ∈ calls, call.isBodyCall = true) :
    run h f calls = .ok f := by
  induction calls with
  | nil => rfl
  | cons call rest ih =>
    simp only [run, step_done h f call hdo hflag (hcalls call (List.mem_cons_self _ _))]
    exact ih (fun c hc => hcalls c (List.mem_cons_of_mem _ hc))

theorem run_chunks (h : Host) (f : Filter) (chunks : List Call)
    (hdo : f.config_.doRequest = true) (hflag : f.request_processing_finished_ = false)
    (hchunks : ∀ call ∈ chunks, call.isChunk = true) :
    ∃ buffer, run h f chunks = .ok { f with decodingBuffer := buffer } := by
  induction chunks generalizing f with
  | nil => exact ⟨f.decodingBuffer, rfl⟩
  | cons call rest ih =>
    obtain ⟨bytes, hstep⟩ := step_chunk h f call hdo hflag (hchunks call (List.mem_cons_self _ _))
    obtain ⟨buffer, hrun⟩ := ih (addDecodedData f bytes) hdo hflag
      (fun c hc => hchunks c (List.mem_cons_of_mem _ hc))
    exact ⟨buffer, by simp only [run, hstep, hrun]; rfl⟩

theorem isBodyCall_of_isChunk (call : Call) (hc : call.isChunk = true) :
    call.isBodyCall = true := by
  cases call with
  | headers content_type end_stream => simp [Call.isChunk] at hc
  | data bytes end_stream => rfl
  | trailers => rfl

theorem isBodyCall_of_isEnd (call : Call) (hc : call.isEnd = true) :
    call.isBodyCall = true := by
  cases call with
  | headers content_type end_stream => simp [Call.isEnd] at hc
  | data bytes end_stream => rfl
  | trailers => rfl

/-- C5. A message driven as one `decodeHeaders` call that ends the stream, or
as one `decodeHeaders` call followed by data chunks without `end_stream` and
then by a data chunk with `end_stream` or by `decodeTrailers`, runs to its end
and leaves exactly one of the four counters one higher and the other three
unchanged, whatever the content type, the rules and the body bytes. -/
theorem run_counts_once (h : Host) (f : Filter) (content_type : String)
    (chunks : List Call) (last : Call)
    (hdo : f.config_.doRequest = true)
    (hflag : f.request_processing_finished_ = false)
    (hwf : ∀ rule ∈ f.config_.request_rules_, rule.walkable)
    (hchunks : ∀ call ∈ chunks, call.isChunk = true)
    (hlast : last.isEnd = true) :
    (∃ f1, run h f [.headers content_type true] = .ok f1 ∧
      Stats.oneIncrement f.stats_ f1.stats_ ∧
      f1.stats_.total = f.stats_.total + 1) ∧
    (∃ f1, run h f (.headers content_type false :: (chunks ++ [last])) = .ok f1 ∧
      Stats.oneIncrement f.stats_ f1.stats_ ∧
      f1.stats_.total = f.stats_.total + 1) := by
  have htotal : ∀ s1 s2 : Stats, Stats.oneIncrement s1 s2 → s2.total = s1.total + 1 := by
    intro s1 s2 hinc
    rcases hinc with hs | hs | hs | hs <;> subst hs <;> simp only [Stats.total] <;> omega
  by_cases hgate : requestContentTypeAllowed f.config_ content_type = true
  · constructor
    · refine ⟨(f.afterCommit
          (stageAllOnMissing f.dynamicMetadata f.config_.request_rules_ [])).incNoBody,
        by simp only [run, step, decodeHeaders_no_body f content_type hdo hflag hgate],
        Or.inr (Or.inl rfl), ?_⟩
      exact htotal _ _ (Or.inr (Or.inl rfl))
    · obtain ⟨buffer, hrun⟩ := run_chunks h f chunks hdo hflag hchunks
      obtain ⟨f1, hstep, _, _, hinc, _⟩ := step_end h { f with decodingBuffer := buffer } last
        hdo hflag hwf hlast
      refine ⟨f1, ?_, hinc, htotal _ _ hinc⟩
      simp only [run, step, decodeHeaders_wait f content_type hdo hgate]
      rw [run_append, hrun]
      simp only [run, hstep]
  · have hgate2 : requestContentTypeAllowed f.config_ content_type = false := by
      simpa using hgate
    constructor
    · refine ⟨({ f with request_processing_finished_ := true } :
          Filter).incMismatchedContentType,
        by simp only [run, step, decodeHeaders_rejected f content_type true hdo hgate2],
        Or.inr (Or.inr (Or.inr rfl)), ?_⟩
      exact htotal _ _ (Or.inr (Or.inr (Or.inr rfl)))
    · refine ⟨({ f with request_processing_finished_ := true } :
          Filter).incMismatchedContentType, ?_, Or.inr (Or.inr (Or.inr rfl)),
        htotal _ _ (Or.inr (Or.inr (Or.inr rfl)))⟩
      simp only [run, step, decodeHeaders_rejected f content_type false hdo hgate2]
      refine run_done h
        (({ f with request_processing_finished_ := true } : Filter).incMismatchedContentType)
        (chunks ++ [last]) hdo rfl ?_
      intro call hc
      rcases List.mem_append.mp hc with hc1 | hc1
      · exact isBodyCall_of_isChunk call (hchunks call hc1)
      · rw [List.mem_singleton.mp hc1]
        exact isBodyCall_of_isEnd last hlast

/-- The body `{"a":{"b":"42"}}` sent as two chunks and ended by trailers counts
one `rq_success`; the same headers with `end_stream` count one `rq_no_body`. -/
theorem run_counts_once_witness :
    (∃ f1,
      run sampleHost
        (sampleFilter
          [sampleRule ["a", "b"] (some (sampleKeyValue "answer" none .NUMBER false)) none none]
          [])
        [.headers "application/json" true] = .ok f1 ∧
      f1.stats_ = { rq_success_ := 0, rq_no_body_ := 1, rq_invalid_json_body_ := 0,
                    rq_mismatched_content_type_ := 0 }) ∧
    (∃ f1,
      run sampleHost
        (sampleFilter
          [sampleRule ["a", "b"] (some (sampleKeyValue "answer" none .NUMBER false)) none none]
          [])
        [.headers "application/json" false, .data "\x7b\"a\":\x7b\"b\"" false,
          .data ":\"42\"\x7d\x7d" false, .trailers] = .ok f1 ∧
      f1.stats_ = { rq_success_ := 1, rq_no_body_ := 0, rq_invalid_json_body_ := 0,
                    rq_mismatched_content_type_ := 0 } ∧
      f1.stats_.total = 1) := by
  obtain ⟨⟨f1, hrun1, _, _⟩, ⟨f2, hrun2, _, htotal⟩⟩ :=
    run_counts_once sampleHost
      (sampleFilter
        [sampleRule ["a", "b"] (some (sampleKeyValue "answer" none .NUMBER false)) none none]
        [])
      "application/json"
      [.data "\x7b\"a\":\x7b\"b\"" false, .data ":\"42\"\x7d\x7d" false] .trailers
      rfl rfl (by decide) (by decide) rfl
  refine ⟨⟨f1, hrun1, ?_⟩, ⟨f2, hrun2, ?_, htotal⟩⟩
  · cases hrun1
    rfl
  · cases hrun2
    rfl

theorem step_body_call (h : Host) (s : Filter) (call : Call)
    (hdo : s.config_.doRequest = true)
    (hwf : ∀ rule ∈ s.config_.request_rules_, rule.walkable)
    (hcall : call.isBodyCall = true) :
    ∃ s1, step h s call = .ok s1 ∧ s1.config_ = s.config_ ∧
      (s.request_processing_finished_ = true → s1 = s) ∧
      (s.request_processing_finished_ = false →
        (s1.request_processing_finished_ = false ∧ s1.finalizeCalls = s.finalizeCalls) ∨
        (s1.request_processing_finished_ = true ∧
          s1.finalizeCalls.length = s.finalizeCalls.length + 1)) := by
  cases hflag : s.request_processing_finished_ with
  | true =>
    exact ⟨s, step_done h s call hdo hflag hcall, rfl, fun _ => rfl,
      fun hfalse => by simp at hfalse⟩
  | false =>
    by_cases hchunk : call.isChunk = true
    · obtain ⟨bytes, hstep⟩ := step_chunk h s call hdo hflag hchunk
      exact ⟨_, hstep, rfl, fun htrue => by simp at htrue, fun _ => Or.inl ⟨hflag, rfl⟩⟩
    · have hend : call.isEnd = true := by
        cases call with
        | headers content_type end_stream => simp [Call.isBodyCall] at hcall
        | trailers => rfl
        | data bytes end_stream =>
          cases end_stream with
          | true => rfl
          | false => simp [Call.isChunk] at hchunk
      obtain ⟨s1, hstep, hdone, hcfg, _, hlen⟩ := step_end h s call hdo hflag hwf hend
      exact ⟨s1, hstep, hcfg, fun htrue => by simp at htrue, fun _ => Or.inr ⟨hdone, hlen⟩⟩

theorem runTrace_body_calls (h : Host) (s : Filter) (calls : List Call) (bound : Nat)
    (hdo : s.config_.doRequest = true)
    (hwf : ∀ rule ∈ s.config_.request_rules_, rule.walkable)
    (hcalls : ∀ call ∈ calls, call.isBodyCall = true)
    (hmost : s.finalizeCalls.length ≤ bound + 1)
    (hnone : s.request_processing_finished_ = false → s.finalizeCalls.length = bound) :
    ∃ states, runTrace h s calls = .ok states ∧ states.length = calls.length ∧
      (∀ t ∈ states, t.finalizeCalls.length ≤ bound + 1) ∧
      List.Chain
        (fun before after : Filter => before.request_processing_finished_ = true →
          after.request_processing_finished_ = true) s states := by
  induction calls generalizing s with
  | nil => exact ⟨[], rfl, rfl, fun t ht => by simp at ht, List.Chain.nil⟩
  | cons call rest ih =>
    obtain ⟨s1, hstep, hcfg, hsame, hmove⟩ := step_body_call h s call hdo hwf
      (hcalls call (List.mem_cons_self _ _))
    have hmost1 : s1.finalizeCalls.length ≤ bound + 1 := by
      cases hflag : s.request_processing_finished_ with
      | true => rw [hsame hflag]; exact hmost
      | false =>
        rcases hmove hflag with ⟨_, hcallsEq⟩ | ⟨_, hlen⟩
        · rw [hcallsEq]; exact hmost
        · rw [hlen, hnone hflag]
    have hnone1 : s1.request_processing_finished_ = false → s1.finalizeCalls.length = bound := by
      intro hfalse
      cases hflag : s.request_processing_finished_ with
      | true =>
        rw [hsame hflag] at hfalse
        rw [hflag] at hfalse
        simp at hfalse
      | false =>
        rcases hmove hflag with ⟨_, hcallsEq⟩ | ⟨htrue, _⟩
        · rw [hcallsEq]; exact hnone hflag
        · rw [htrue] at hfalse
          simp at hfalse
    have hmono : s.request_processing_finished_ = true →
        s1.request_processing_finished_ = true := by
      intro htrue
      rw [hsame htrue]
      exact htrue
    obtain ⟨states, hrun, hlen, hall, hchain⟩ := ih s1 (by rw [hcfg]; exact hdo)
      (by rw [hcfg]; exact hwf) (fun c hc => hcalls c (List.mem_cons_of_mem _ hc)) hmost1 hnone1
    refine ⟨s1 :: states, by simp only [runTrace, hstep, hrun], by simp [hlen], ?_,
      List.Chain.cons hmono hchain⟩
    intro t ht
    rcases List.mem_cons.mp ht with ht1 | ht1
    · rw [ht1]; exact hmost1
    · exact hall t ht1

/-- C6. From a filter whose flag is not set, one `decodeHeaders` call followed
by any `decodeData` and `decodeTrailers` calls, in any order and with any
`end_stream` values, runs without a failed assertion; in every state reached
`finalizeDynamicMetadata` has been called at most once more than before, and a
flag that is set stays set in the next state. -/
theorem runTrace_commits_at_most_once (h : Host) (f : Filter) (content_type : String)
    (end_stream : Bool) (rest : List Call)
    (hdo : f.config_.doRequest = true)
    (hflag : f.request_processing_finished_ = false)
    (hwf : ∀ rule ∈ f.config_.request_rules_, rule.walkable)
    (hrest : ∀ call ∈ rest, call.isBodyCall = true) :
    ∃ states, runTrace h f (.headers content_type end_stream :: rest) = .ok states ∧
      states.length = rest.length + 1 ∧
      (∀ s ∈ states, s.finalizeCalls.length ≤ f.finalizeCalls.length + 1) ∧
      List.Chain
        (fun before after : Filter => before.request_processing_finished_ = true →
          after.request_processing_finished_ = true) f states := by
  have hfirst : ∃ s1, step h f (.headers content_type end_stream) = .ok s1 ∧
      s1.config_ = f.config_ ∧ s1.finalizeCalls.length ≤ f.finalizeCalls.length + 1 ∧
      (s1.request_processing_finished_ = false →
        s1.finalizeCalls.length = f.finalizeCalls.length) := by
    by_cases hgate : requestContentTypeAllowed f.config_ content_type = true
    · cases end_stream with
      | true =>
        refine ⟨(f.afterCommit
            (stageAllOnMissing f.dynamicMetadata f.config_.request_rules_ [])).incNoBody,
          by simp only [step, decodeHeaders_no_body f content_type hdo hflag hgate], rfl,
          by simp [Filter.afterCommit, Filter.incNoBody], ?_⟩
        intro hfalse
        simp [Filter.afterCommit, Filter.incNoBody] at hfalse
      | false =>
        exact ⟨f, by simp only [step, decodeHeaders_wait f content_type hdo hgate], rfl,
          Nat.le_succ _, fun _ => rfl⟩
    · have hgate2 : requestContentTypeAllowed f.config_ content_type = false := by
        simpa using hgate
      refine ⟨({ f with request_processing_finished_ := true } :
          Filter).incMismatchedContentType,
        by simp only [step, decodeHeaders_rejected f content_type end_stream hdo hgate2], rfl,
        by simp [Filter.incMismatchedContentType], ?_⟩
      intro hfalse
      simp [Filter.incMismatchedContentType] at hfalse
  obtain ⟨s1, hstep, hcfg, hmost, hnone⟩ := hfirst
  obtain ⟨states, hrun, hlen, hall, hchain⟩ := runTrace_body_calls h s1 rest
    f.finalizeCalls.length (by rw [hcfg]; exact hdo) (by rw [hcfg]; exact hwf) hrest hmost hnone
  refine ⟨s1 :: states, by simp only [runTrace, hstep, hrun], by simp [hlen], ?_,
    List.Chain.cons (fun htrue => by rw [hflag] at htrue; simp at htrue) hchain⟩
  intro t ht
  rcases List.mem_cons.mp ht with ht1 | ht1
  · rw [ht1]; exact hmost
  · exact hall t ht1

/-- Headers, a chunk, trailers, then a late chunk with `end_stream` and a
second trailers call: the run has five states, the commit is called once, and
the flag is set from the trailers on. -/
theorem runTrace_commits_at_most_once_witness :
    ∃ states,
      runTrace sampleHost
        (sampleFilter
          [sampleRule ["a", "b"] (some (sampleKeyValue "answer" none .NUMBER false)) none none]
          [])
        [.headers "application/json" false, .data "\x7b\x7d" false, .trailers,
          .data "7" true, .trailers] = .ok states ∧
      states.length = 5 ∧
      (∀ s ∈ states, s.finalizeCalls.length ≤ 1) ∧
      states.map (fun s => s.request_processing_finished_)
        = [false, false, true, true, true] ∧
      states.map (fun s => s.finalizeCalls.length) = [0, 0, 1, 1, 1] := by
  obtain ⟨states, hrun, hlen, hall, _⟩ :=
    runTrace_commits_at_most_once sampleHost
      (sampleFilter
        [sampleRule ["a", "b"] (some (sampleKeyValue "answer" none .NUMBER false)) none none]
        [])
      "application/json" false
      [.data "\x7b\x7d" false, .trailers, .data "7" true, .trailers]
      rfl rfl (by decide) (by decide)
  refine ⟨states, hrun, hlen, hall, ?_, ?_⟩
  · cases hrun
    rfl
  · cases hrun
    rfl

/-- C17. Once the flag `request_processing_finished_` is set, every
`decodeData` call, with any data and any `end_stream`, and every
`decodeTrailers` call returns `Continue` and leaves the filter, its counters,
the metadata store and the recorded host calls exactly as they were. -/
theorem done_calls_change_nothing (h : Host) (f : Filter) (data : String) (end_stream : Bool)
    (hdo : f.config_.doRequest = true) (hflag : f.request_processing_finished_ = true) :
    decodeData h f data end_stream = .ok (.Continue, f) ∧
    decodeTrailers h f = .ok (.Continue, f) ∧
    step h f (.data data end_stream) = .ok f ∧
    step h f .trailers = .ok f :=
  ⟨decodeData_done h f data end_stream hdo hflag, decodeTrailers_done h f hdo hflag,
    step_done h f (.data data end_stream) hdo hflag rfl, step_done h f .trailers hdo hflag rfl⟩

/-- After a rejected content type the flag is set, and a later chunk with
`end_stream` and a later trailers call leave the state as it was. -/
theorem done_calls_change_nothing_witness :
    ∃ f1,
      decodeHeaders
        (sampleFilter
          [sampleRule ["a"] (some (sampleKeyValue "k" none .STRING false)) none none] [])
        "text/plain" false = .ok (.Continue, f1) ∧
      f1.request_processing_finished_ = true ∧
      decodeData sampleHost f1 "\x7b\"a\":true\x7d" true = .ok (.Continue, f1) ∧
      decodeTrailers sampleHost f1 = .ok (.Continue, f1) :=
  ⟨_, rfl, rfl,
    (done_calls_change_nothing sampleHost _ "\x7b\"a\":true\x7d" true rfl rfl).1,
    (done_calls_change_nothing sampleHost _ "\x7b\"a\":true\x7d" true rfl rfl).2.1⟩

/-- C18. For a message whose content type is accepted and whose headers do
not end the stream: `decodeHeaders` returns `StopIteration` and changes
nothing; every `decodeData` call without `end_stream` on a filter whose flag is
not set returns `StopIterationAndBuffer` and changes nothing; after the headers
and any such chunks only the decoding buffer differs from the start, and the
call that ends the message makes the one commit and sets the flag. -/
theorem no_action_on_partial_body (h : Host) (f : Filter) (content_type : String)
    (chunks : List Call) (last : Call)
    (hdo : f.config_.doRequest = true)
    (hflag : f.request_processing_finished_ = false)
    (hwf : ∀ rule ∈ f.config_.request_rules_, rule.walkable)
    (hgate : requestContentTypeAllowed f.config_ content_type = true)
    (hchunks : ∀ call ∈ chunks, call.isChunk = true)
    (hlast : last.isEnd = true) :
    decodeHeaders f content_type false = .ok (.StopIteration, f) ∧
    (∀ (g : Filter) (data : String), g.config_.doRequest = true →
      g.request_processing_finished_ = false →
      decodeData h g data false = .ok (.StopIterationAndBuffer, g)) ∧
    (∃ buffer, run h f (.headers content_type false :: chunks)
        = .ok { f with decodingBuffer := buffer } ∧
      ∃ f1, run h f (.headers content_type false :: (chunks ++ [last])) = .ok f1 ∧
        step h { f with decodingBuffer := buffer } last = .ok f1 ∧
        f1.request_processing_finished_ = true ∧
        f1.finalizeCalls.length = f.finalizeCalls.length + 1) := by
  refine ⟨decodeHeaders_wait f content_type hdo hgate,
    fun g data hg hgflag => decodeData_chunk h g data hg hgflag, ?_⟩
  obtain ⟨buffer, hrun⟩ := run_chunks h f chunks hdo hflag hchunks
  obtain ⟨f1, hstep, hdone, _, _, hlen⟩ := step_end h { f with decodingBuffer := buffer } last
    hdo hflag hwf hlast
  refine ⟨buffer, ?_, f1, ?_, hstep, hdone, hlen⟩
  · simp only [run, step, decodeHeaders_wait f content_type hdo hgate]
    exact hrun
  · simp only [run, step, decodeHeaders_wait f content_type hdo hgate]
    rw [run_append, hrun]
    simp only [run, hstep]

/-- Two chunks of `{"a":{"b":"42"}}` after the headers: the filter is as at
the start except for the buffer, which holds the whole body; the trailers then
make the commit. -/
theorem no_action_on_partial_body_witness :
    run sampleHost
        (sampleFilter
          [sampleRule ["a", "b"] (some (sampleKeyValue "answer" none .NUMBER false)) none none]
          [])
        [.headers "application/json" false, .data "\x7b\"a\":\x7b\"b\"" false,
          .data ":\"42\"\x7d\x7d" false]
      = .ok { sampleFilter
          [sampleRule ["a", "b"] (some (sampleKeyValue "answer" none .NUMBER false)) none none]
          [] with decodingBuffer := some "\x7b\"a\":\x7b\"b\":\"42\"\x7d\x7d" } ∧
    ∃ f1,
      run sampleHost
        (sampleFilter
          [sampleRule ["a", "b"] (some (sampleKeyValue "answer" none .NUMBER false)) none none]
          [])
        [.headers "application/json" false, .data "\x7b\"a\":\x7b\"b\"" false,
          .data ":\"42\"\x7d\x7d" false, .trailers] = .ok f1 ∧
      f1.finalizeCalls.length = 1 := by
  obtain ⟨_, _, buffer, _, f1, hrun, _, _, hlen⟩ :=
    no_action_on_partial_body sampleHost
      (sampleFilter
        [sampleRule ["a", "b"] (some (sampleKeyValue "answer" none .NUMBER false)) none none]
        [])
      "application/json"
      [.data "\x7b\"a\":\x7b\"b\"" false, .data ":\"42\"\x7d\x7d" false] .trailers
      rfl rfl (by decide) rfl (by decide) rfl
  exact ⟨rfl, f1, hrun, hlen⟩

theorem mem_foldl_insert (items acc : List String) (x : String) :
    x ∈ items.foldl (fun set ct => if ct ∈ set then set else set ++ [ct]) acc
      ↔ x ∈ acc ∨ x ∈ items := by
  induction items generalizing acc with
  | nil => simp
  | cons item rest ih =>
    simp only [List.foldl_cons, ih, List.mem_cons]
    by_cases hmem : item ∈ acc
    · simp only [hmem, if_true]
      constructor
      · rintro (hx | hx)
        · exact Or.inl hx
        · exact Or.inr (Or.inr hx)
      · rintro (hx | hx | hx)
        · exact Or.inl hx
        · exact Or.inl (hx ▸ hmem)
        · exact Or.inr hx
    · simp only [hmem, if_false, List.mem_append, List.mem_singleton]
      constructor
      · rintro ((hx | hx) | hx)
        · exact Or.inl hx
        · exact Or.inr (Or.inl hx)
        · exact Or.inr (Or.inr hx)
      · rintro (hx | hx | hx)
        · exact Or.inl (Or.inl hx)
        · exact Or.inl (Or.inr hx)
        · exact Or.inr hx

theorem mem_generateRequestAllowContentTypes (proto_config : ProtoConfig) (x : String) :
    x ∈ generateRequestAllowContentTypes proto_config ↔
      x ∈ (if proto_config.allow_content_types = [] then ["application/json"]
        else proto_config.allow_content_types) := by
  unfold generateRequestAllowContentTypes
  cases hl : proto_config.allow_content_types with
  | nil => simp
  | cons item rest =>
    simp only [List.isEmpty_cons, Bool.false_eq_true, if_false, mem_foldl_insert]
    simp

/-- C15. For a filter configuration built from a configuration message: the
gate accepts a content type exactly when it is empty and
`allow_empty_content_type` is set, or it is non-empty and a member of the
allow-set, which is `application/json` alone when the configured list is empty
and has the members of the configured list otherwise. When the gate rejects,
`decodeHeaders` returns `Continue`, sets the flag and raises
`rq_mismatched_content_type` by one, and every other field of the filter, the
other counters, the store and the recorded commits among them, is unchanged,
whatever `end_stream` is. -/
theorem content_type_gate (proto_config : ProtoConfig) (f : Filter) (content_type : String)
    (end_stream : Bool)
    (hcfg : FilterConfig.create proto_config true = .ok f.config_) :
    (requestContentTypeAllowed f.config_ content_type = true ↔
      (content_type = "" ∧ proto_config.allow_empty_content_type = true) ∨
      (content_type ≠ "" ∧
        content_type ∈ (if proto_config.allow_content_types = [] then ["application/json"]
          else proto_config.allow_content_types))) ∧
    (requestContentTypeAllowed f.config_ content_type = false →
      decodeHeaders f content_type end_stream = .ok (.Continue,
        { f with
          request_processing_finished_ := true
          stats_ := { f.stats_ with
            rq_mismatched_content_type_ := f.stats_.rq_mismatched_content_type_ + 1 } })) := by
  unfold FilterConfig.create at hcfg
  cases hrules : generateRequestRules proto_config.rules with
  | error e => simp [hrules] at hcfg
  | ok rules =>
    simp only [hrules] at hcfg
    have hcfg2 := (Except.ok.inj hcfg).symm
    have hallow : f.config_.request_allow_content_types_
        = generateRequestAllowContentTypes proto_config := by rw [hcfg2]
    have hempty : f.config_.request_allow_empty_content_type_
        = proto_config.allow_empty_content_type := by rw [hcfg2]
    have hdo : f.config_.doRequest = true := by rw [hcfg2]
    constructor
    · unfold requestContentTypeAllowed
      by_cases hct : content_type = ""
      · simp [hct, hempty]
      · simp only [hct, if_false, decide_eq_true_eq, hallow,
          mem_generateRequestAllowContentTypes]
        simp [hct]
    · intro hgate
      rw [decodeHeaders_rejected f content_type end_stream hdo hgate]
      rfl

/-- With an empty configured list the allow-set is `application/json`:
`text/plain` and the empty content type are rejected, and the rejection of
`text/plain` on headers that end the stream only sets the flag and counts
`rq_mismatched_content_type`. -/
theorem content_type_gate_witness :
    requestContentTypeAllowed (sampleFilter [] []).config_ "application/json" = true ∧
    requestContentTypeAllowed (sampleFilter [] []).config_ "" = false ∧
    decodeHeaders (sampleFilter [] []) "text/plain" true = .ok (.Continue,
      { sampleFilter [] [] with
        request_processing_finished_ := true
        stats_ := { rq_success_ := 0, rq_no_body_ := 0, rq_invalid_json_body_ := 0,
                    rq_mismatched_content_type_ := 1 } }) :=
  ⟨rfl, rfl,
    (content_type_gate
      { rules := [], allow_content_types := [], allow_empty_content_type := false }
      (sampleFilter [] []) "text/plain" true rfl).2 rfl⟩

/-! ## Whole-body outcomes -/

/-- C9. For a non-empty body that the loader rejects and any rule list: the
map handed to the commit is the result of `handleAllOnError`'s loop, that is of
the `applyKeyValue` calls, in declaration order, of the `on_error` literal of
each rule that sets `on_error`; a rule without `on_error` makes no call and no
`on_present` or `on_missing` outcome is applied; `rq_invalid_json_body` goes up
by one and the other counters are unchanged. -/
theorem processBody_invalid_json (h : Host) (f : Filter) (bytes : String) (rules : List Rule)
    (message : String)
    (hflag : f.request_processing_finished_ = false)
    (hlen : bytes.utf8ByteSize ≠ 0)
    (hload : h.loadFromStringNoThrow bytes = .error message) :
    (∃ f1, processBody h f (some bytes) rules = .ok f1 ∧
      f1.finalizeCalls = f.finalizeCalls ++ [stageAllOnError f.dynamicMetadata rules []] ∧
      f1.stats_ = { f.stats_ with
        rq_invalid_json_body_ := f.stats_.rq_invalid_json_body_ + 1 } ∧
      f1.request_processing_finished_ = true) ∧
    stageAllOnError f.dynamicMetadata rules []
      = stageWrites f.dynamicMetadata (rules.filterMap onErrorWrite) [] ∧
    (∀ rule : Rule, rule.rule_.on_error = none → onErrorWrite rule = none) ∧
    (∀ (rule : Rule) (on_error : KeyValuePair), rule.rule_.on_error = some on_error →
      onErrorWrite rule = some (on_error, on_error.valueOrDefault)) ∧
    (∀ (write : Write) (rest : List Write) (struct_map : StructMap),
      stageWrites f.dynamicMetadata (write :: rest) struct_map
        = stageWrites f.dynamicMetadata rest
          (addMetadata f.dynamicMetadata (decideNamespace write.1.metadata_namespace)
            write.1.key write.2 write.1.preserve_existing_metadata_value struct_map).2) :=
  ⟨⟨_, processBody_invalid h f bytes rules message hflag hlen hload, rfl, rfl, rfl⟩,
    stageAllOnError_eq_writes f.dynamicMetadata rules [],
    fun rule hnone => by simp only [onErrorWrite, hnone],
    fun rule on_error hsome => by simp only [onErrorWrite, hsome],
    fun _ _ _ => rfl⟩

/-- The body bytes `not json` with a rule whose `on_error` literal is `err`,
after a rule without `on_error`: the commit receives `err` alone and only
`rq_invalid_json_body` is counted. -/
theorem processBody_invalid_json_witness :
    ∃ f1,
      processBody sampleHost
        (sampleFilter
          [sampleRule ["a"] (some (sampleKeyValue "p" (some (.stringValue "here")) .STRING false))
            (some (sampleKeyValue "m" (some (.stringValue "gone")) .STRING false)) none,
           sampleRule ["b"] (some (sampleKeyValue "k" none .STRING false)) none
            (some (sampleKeyValue "k" (some (.stringValue "err")) .STRING false))] [])
        (some "not json")
        [sampleRule ["a"] (some (sampleKeyValue "p" (some (.stringValue "here")) .STRING false))
            (some (sampleKeyValue "m" (some (.stringValue "gone")) .STRING false)) none,
           sampleRule ["b"] (some (sampleKeyValue "k" none .STRING false)) none
            (some (sampleKeyValue "k" (some (.stringValue "err")) .STRING false))]
        = .ok f1 ∧
      f1.finalizeCalls = [[("envoy.filters.http.json_to_metadata",
        [("k", .stringValue "err")])]] ∧
      f1.stats_ = { rq_success_ := 0, rq_no_body_ := 0, rq_invalid_json_body_ := 1,
                    rq_mismatched_content_type_ := 0 } := by
  obtain ⟨⟨f1, hbody, hcalls, hstats, _⟩, _⟩ :=
    processBody_invalid_json sampleHost
      (sampleFilter
        [sampleRule ["a"] (some (sampleKeyValue "p" (some (.stringValue "here")) .STRING false))
          (some (sampleKeyValue "m" (some (.stringValue "gone")) .STRING false)) none,
         sampleRule ["b"] (some (sampleKeyValue "k" none .STRING false)) none
          (some (sampleKeyValue "k" (some (.stringValue "err")) .STRING false))] [])
      "not json"
      [sampleRule ["a"] (some (sampleKeyValue "p" (some (.stringValue "here")) .STRING false))
          (some (sampleKeyValue "m" (some (.stringValue "gone")) .STRING false)) none,
         sampleRule ["b"] (some (sampleKeyValue "k" none .STRING false)) none
          (some (sampleKeyValue "k" (some (.stringValue "err")) .STRING false))]
      "not json" rfl (by decide) rfl
  exact ⟨f1, hbody, hcalls, hstats⟩

/-- C10. For every rule list and metadata store, a body that parses to a
root that is not an object is committed as a message without a body is (no
buffer, an empty buffer, or `end_stream` on the headers): the same state
results but for the counter, `rq_success` in the first case and `rq_no_body` in
the others, and the map handed to the commit is the result of the
`applyKeyValue` calls of the `on_missing` literal of each rule that sets
`on_missing` and of nothing else. -/
theorem scalar_root_commits_as_no_body (h : Host) (f : Filter) (bytes : String)
    (rules : List Rule)
    (hflag : f.request_processing_finished_ = false)
    (hlen : bytes.utf8ByteSize ≠ 0)
    (hload : h.loadFromStringNoThrow bytes = .ok none) :
    (∃ committed : Filter,
      processBody h f (some bytes) rules = .ok committed.incSuccess ∧
      processBody h f none rules = .ok committed.incNoBody ∧
      processBody h f (some "") rules = .ok committed.incNoBody ∧
      (∀ content_type : String, f.config_.doRequest = true →
        requestContentTypeAllowed f.config_ content_type = true →
        rules = f.config_.request_rules_ →
        decodeHeaders f content_type true = .ok (.Continue, committed.incNoBody)) ∧
      committed.stats_ = f.stats_ ∧
      committed.finalizeCalls
        = f.finalizeCalls ++ [stageAllOnMissing f.dynamicMetadata rules []] ∧
      committed.dynamicMetadata = setAllDynamicMetadata f.dynamicMetadata
        (stageAllOnMissing f.dynamicMetadata rules [])) ∧
    stageAllOnMissing f.dynamicMetadata rules []
      = stageWrites f.dynamicMetadata (rules.filterMap onMissingWrite) [] ∧
    (∀ rule : Rule, rule.rule_.on_missing = none → onMissingWrite rule = none) ∧
    (∀ (rule : Rule) (on_missing : KeyValuePair), rule.rule_.on_missing = some on_missing →
      onMissingWrite rule = some (on_missing, on_missing.valueOrDefault)) := by
  refine ⟨⟨f.afterCommit (stageAllOnMissing f.dynamicMetadata rules []),
    processBody_scalar h f bytes rules hflag hlen hload, processBody_none h f rules hflag,
    processBody_empty h f "" rules hflag (by decide), ?_, rfl, rfl, rfl⟩,
    stageAllOnMissing_eq_writes f.dynamicMetadata rules [],
    fun rule hnone => by simp only [onMissingWrite, hnone],
    fun rule on_missing hsome => by simp only [onMissingWrite, hsome]⟩
  intro content_type hdo hgate hrules
  rw [hrules]
  exact decodeHeaders_no_body f content_type hdo hflag hgate

/-- The body `7` and an absent body with one rule that sets `on_present`,
`on_missing` and `on_error`: both commit the `on_missing` literal alone; the
first counts `rq_success`, the second `rq_no_body`. -/
theorem scalar_root_commits_as_no_body_witness :
    ∃ f1 f2,
      processBody sampleHost
        (sampleFilter
          [sampleRule ["a"] (some (sampleKeyValue "k" (some (.stringValue "here")) .STRING false))
            (some (sampleKeyValue "k" (some (.stringValue "gone")) .STRING false))
            (some (sampleKeyValue "k" (some (.stringValue "err")) .STRING false))] [])
        (some "7")
        [sampleRule ["a"] (some (sampleKeyValue "k" (some (.stringValue "here")) .STRING false))
            (some (sampleKeyValue "k" (some (.stringValue "gone")) .STRING false))
            (some (sampleKeyValue "k" (some (.stringValue "err")) .STRING false))]
        = .ok f1 ∧
      processBody sampleHost
        (sampleFilter
          [sampleRule ["a"] (some (sampleKeyValue "k" (some (.stringValue "here")) .STRING false))
            (some (sampleKeyValue "k" (some (.stringValue "gone")) .STRING false))
            (some (sampleKeyValue "k" (some (.stringValue "err")) .STRING false))] [])
        none
        [sampleRule ["a"] (some (sampleKeyValue "k" (some (.stringValue "here")) .STRING false))
            (some (sampleKeyValue "k" (some (.stringValue "gone")) .STRING false))
            (some (sampleKeyValue "k" (some (.stringValue "err")) .STRING false))]
        = .ok f2 ∧
      f1.finalizeCalls = [[("envoy.filters.http.json_to_metadata",
        [("k", .stringValue "gone")])]] ∧
      f2.finalizeCalls = f1.finalizeCalls ∧
      f2.dynamicMetadata = f1.dynamicMetadata ∧
      f1.stats_ = { rq_success_ := 1, rq_no_body_ := 0, rq_invalid_json_body_ := 0,
                    rq_mismatched_content_type_ := 0 } ∧
      f2.stats_ = { rq_success_ := 0, rq_no_body_ := 1, rq_invalid_json_body_ := 0,
                    rq_mismatched_content_type_ := 0 } := by
  obtain ⟨⟨committed, hscalar, hnone, _, _, hstats, hcalls, _⟩, _⟩ :=
    scalar_root_commits_as_no_body sampleHost
      (sampleFilter
        [sampleRule ["a"] (some (sampleKeyValue "k" (some (.stringValue "here")) .STRING false))
          (some (sampleKeyValue "k" (some (.stringValue "gone")) .STRING false))
          (some (sampleKeyValue "k" (some (.stringValue "err")) .STRING false))] [])
      "7"
      [sampleRule ["a"] (some (sampleKeyValue "k" (some (.stringValue "here")) .STRING false))
          (some (sampleKeyValue "k" (some (.stringValue "gone")) .STRING false))
          (some (sampleKeyValue "k" (some (.stringValue "err")) .STRING false))]
      rfl (by decide) rfl
  refine ⟨committed.incSuccess, committed.incNoBody, hscalar, hnone, ?_, rfl, rfl, ?_, ?_⟩
  · exact hcalls
  · simp only [Filter.incSuccess, hstats]
    rfl
  · simp only [Filter.incNoBody, hstats]
    rfl

/-! ## The converters and the rule constructor -/

theorem digitChar_toNat (d : Nat) (hd : d < 10) : (Char.ofNat (48 + d)).toNat = 48 + d := by
  interval_cases d <;> rfl

theorem decimalValue_append (digits : List Char) (c : Char) :
    decimalValue (digits ++ [c]) = decimalValue digits * 10 + (c.toNat - 48) := by
  simp [decimalValue, List.foldl_append]

theorem natDigits_spec (fuel n : Nat) (hfuel : n < fuel) :
    natDigits fuel n ≠ [] ∧
    (∀ c ∈ natDigits fuel n, isDecimalDigit c = true) ∧
    decimalValue (natDigits fuel n) = n ∧
    ((natDigits fuel n).head? = some '0' → natDigits fuel n = ['0']) := by
  induction fuel generalizing n with
  | zero => exact absurd hfuel (Nat.not_lt_zero _)
  | succ fuel ih =>
    by_cases hsmall : n < 10
    · have hdigit := digitChar_toNat n hsmall
      have hds : natDigits (fuel + 1) n = [Char.ofNat (48 + n)] := by
        simp [natDigits, hsmall]
      rw [hds]
      refine ⟨by simp, ?_, ?_, ?_⟩
      · intro c hc
        rw [List.mem_singleton.mp hc]
        simp only [isDecimalDigit, hdigit]
        simp
        omega
      · simp [decimalValue, hdigit]
      · intro hhead
        simp only [List.head?_cons, Option.some.injEq] at hhead
        rw [hhead]
    · have hlt : n / 10 < fuel := by omega
      obtain ⟨hne, hall, hval, hzero⟩ := ih (n / 10) hlt
      have hdigit := digitChar_toNat (n % 10) (Nat.mod_lt _ (by decide))
      have hds : natDigits (fuel + 1) n
          = natDigits fuel (n / 10) ++ [Char.ofNat (48 + n % 10)] := by
        simp [natDigits, hsmall]
      rw [hds]
      refine ⟨by simp, ?_, ?_, ?_⟩
      · intro c hc
        rcases List.mem_append.mp hc with hc1 | hc1
        · exact hall c hc1
        · rw [List.mem_singleton.mp hc1]
          simp only [isDecimalDigit, hdigit]
          simp
          omega
      · rw [decimalValue_append, hval, hdigit]
        omega
      · intro hhead
        rw [List.head?_append_of_ne_nil _ hne] at hhead
        have hsingle := hzero hhead
        rw [hsingle] at hval
        have hv : decimalValue ['0'] = 0 := by decide
        rw [hv] at hval
        omega

/-- C12. The visitor `JsonValueToStringConverter` returns a string for every
scalar: `1` for the `bool` true and `0` for false, since `std::to_string`
promotes the `bool` to `int`; for every `int64_t` its decimal digits, without a
leading zero and with a minus sign in front for a negative value, the minimum
and the maximum `int64_t` included; and a string itself, unchanged. -/
theorem JsonValueToStringConverter_values (h : Host) :
    JsonValueToStringConverter h (.bool true) = "1" ∧
    JsonValueToStringConverter h (.bool false) = "0" ∧
    (∀ i : Int, ∃ digits : List Char,
      digits ≠ [] ∧ (∀ c ∈ digits, isDecimalDigit c = true) ∧
      decimalValue digits = i.natAbs ∧
      (digits.head? = some '0' → digits = ['0']) ∧
      JsonValueToStringConverter h (.int64 i)
        = String.mk (if i < 0 then '-' :: digits else digits)) ∧
    JsonValueToStringConverter h (.int64 (-9223372036854775808)) = "-9223372036854775808" ∧
    JsonValueToStringConverter h (.int64 9223372036854775807) = "9223372036854775807" ∧
    (∀ s : String, JsonValueToStringConverter h (.string s) = s) := by
  refine ⟨rfl, rfl, ?_, rfl, rfl, fun s => rfl⟩
  intro i
  obtain ⟨hne, hall, hval, hzero⟩ := natDigits_spec (i.natAbs + 1) i.natAbs (Nat.lt_succ_self _)
  refine ⟨natDigits (i.natAbs + 1) i.natAbs, hne, hall, hval, hzero, ?_⟩
  simp only [JsonValueToStringConverter, intToString]
  by_cases hneg : i < 0
  · simp only [hneg, if_true]
  · simp only [hneg, if_false]

/-- The `bool` true is converted to the text `1`, not to `true`, and false to
`0`, not to `false`. -/
theorem JsonValueToStringConverter_bool_digit :
    JsonValueToStringConverter sampleHost (.bool true) = "1" ∧
    JsonValueToStringConverter sampleHost (.bool true) ≠ "true" ∧
    JsonValueToStringConverter sampleHost (.bool false) = "0" ∧
    JsonValueToStringConverter sampleHost (.bool false) ≠ "false" := by
  decide

/-- C13. For a string leaf `s`, the visitor `JsonValueToProtobufValueConverter`
and the `STRING` branch of `handleOnPresent` fail exactly when the byte length
of `s` is strictly greater than `MAX_PAYLOAD_VALUE_LEN`; a string within the
limit, one of exactly the limit included, becomes the structured string `s`,
and the `STRING` branch stages it unless it is empty. A `bool` becomes the
structured boolean, a `double` the structured number, and an `int64_t` the
structured number of its conversion to `double`, which is the same value for a
magnitude below `2^53`; none of the three fails. -/
theorem structured_value_conversion (h : Host) (filter_metadata : StructMap)
    (parent_node : Json) (key : String) (rule : Rule) (struct_map : StructMap)
    (keyval : KeyValuePair) (s : String)
    (hpresent : rule.rule_.on_present = some keyval)
    (hliteral : keyval.value = none)
    (htype : keyval.type = .STRING)
    (hleaf : getValue parent_node key = .ok (.string s)) :
    ((∃ status, JsonValueToProtobufValueConverter h (.string s) = .error status) ↔
      s.utf8ByteSize > h.maxPayloadValueLen) ∧
    (s.utf8ByteSize ≤ h.maxPayloadValueLen →
      JsonValueToProtobufValueConverter h (.string s) = .ok (.stringValue s)) ∧
    ((∃ status staged, handleOnPresent h filter_metadata parent_node key rule struct_map
        = .ok (.error status, staged)) ↔ s.utf8ByteSize > h.maxPayloadValueLen) ∧
    (s.utf8ByteSize ≤ h.maxPayloadValueLen → s ≠ "" →
      handleOnPresent h filter_metadata parent_node key rule struct_map
        = .ok (.ok (), applyKeyValue filter_metadata (.stringValue s) keyval struct_map)) ∧
    (∀ b : Bool, JsonValueToProtobufValueConverter h (.bool b) = .ok (.boolValue b)) ∧
    (∀ d : Dbl, JsonValueToProtobufValueConverter h (.double d) = .ok (.numberValue d)) ∧
    (∀ i : Int, JsonValueToProtobufValueConverter h (.int64 i)
      = .ok (.numberValue (castInt64 i))) ∧
    (∀ i : Int, i.natAbs < 2 ^ 53 → (castInt64 i).toRat = some (i : ℚ)) := by
  have hhandle : handleOnPresent h filter_metadata parent_node key rule struct_map =
      .ok (if s.utf8ByteSize > h.maxPayloadValueLen then (.error .invalidArgument, struct_map)
        else if s = "" then (.ok (), struct_map)
        else (.ok (), applyKeyValue filter_metadata (.stringValue s) keyval struct_map)) := by
    simp only [handleOnPresent, hpresent, hliteral, hleaf, htype, JsonValueToStringConverter,
      applyKeyValueString]
    by_cases hlong : s.utf8ByteSize > h.maxPayloadValueLen
    · simp only [hlong, if_true]
    · by_cases hempty : s = ""
      · subst hempty
        simp [hlong]
      · simp only [hlong, if_false, hempty]
  refine ⟨?_, ?_, ?_, ?_, fun b => rfl, fun d => rfl, fun i => rfl, castInt64_exact⟩
  · by_cases hlong : s.utf8ByteSize > h.maxPayloadValueLen
    · simp only [JsonValueToProtobufValueConverter, hlong, if_true, iff_true]
      exact ⟨_, rfl⟩
    · simp only [JsonValueToProtobufValueConverter, hlong, if_false, iff_false]
      rintro ⟨status, hst⟩
      cases hst
  · intro hshort
    have hlong : ¬ s.utf8ByteSize > h.maxPayloadValueLen := Nat.not_lt.mpr hshort
    simp only [JsonValueToProtobufValueConverter, hlong, if_false]
  · rw [hhandle]
    by_cases hlong : s.utf8ByteSize > h.maxPayloadValueLen
    · simp only [hlong, if_true, iff_true]
      exact ⟨_, _, rfl⟩
    · simp only [hlong, if_false, iff_false]
      rintro ⟨status, staged, hst⟩
      by_cases hempty : s = ""
      · simp only [hempty, if_true] at hst
        cases hst
      · simp only [hempty, if_false] at hst
        cases hst
  · intro hshort hne
    have hlong : ¬ s.utf8ByteSize > h.maxPayloadValueLen := Nat.not_lt.mpr hshort
    rw [hhandle]
    simp only [hlong, if_false, hne]

/-- With a limit of two bytes, the two-byte string `ab` is accepted by both
paths and staged unchanged, and the three-byte string `abc` fails both. -/
theorem structured_value_conversion_witness :
    JsonValueToProtobufValueConverter smallHost (.string "ab") = .ok (.stringValue "ab") ∧
    handleOnPresent smallHost [] (.object [("a", .string "ab")]) "a"
        (sampleRule ["a"] (some (sampleKeyValue "k" none .STRING false)) none none) []
      = .ok (.ok (), [("envoy.filters.http.json_to_metadata", [("k", .stringValue "ab")])]) ∧
    JsonValueToProtobufValueConverter smallHost (.string "abc") = .error .internal ∧
    handleOnPresent smallHost [] (.object [("a", .string "abc")]) "a"
        (sampleRule ["a"] (some (sampleKeyValue "k" none .STRING false)) none none) []
      = .ok (.error .invalidArgument, []) :=
  ⟨(structured_value_conversion smallHost [] (.object [("a", .string "ab")]) "a"
      (sampleRule ["a"] (some (sampleKeyValue "k" none .STRING false)) none none) []
      (sampleKeyValue "k" none .STRING false) "ab" rfl rfl rfl rfl).2.1 (by decide),
    (structured_value_conversion smallHost [] (.object [("a", .string "ab")]) "a"
      (sampleRule ["a"] (some (sampleKeyValue "k" none .STRING false)) none none) []
      (sampleKeyValue "k" none .STRING false) "ab" rfl rfl rfl rfl).2.2.2.1 (by decide)
      (by decide),
    rfl, rfl⟩

/-- The `int64_t` leaf 9007199254740993 (`2^53 + 1`) becomes the structured
number 9007199254740992, which is not the value of the leaf. -/
theorem structured_value_int64_rounded :
    ∃ number,
      JsonValueToProtobufValueConverter sampleHost (.int64 9007199254740993)
        = .ok (.numberValue number) ∧
      number.toRat = some (9007199254740992 : ℚ) ∧
      number.toRat ≠ some (9007199254740993 : ℚ) := by
  refine ⟨.finite false 4503599627370496 1, rfl, toRat_rounded, ?_⟩
  rw [toRat_rounded]
  norm_num

theorem foldl_push_back (selectors acc : List String) :
    selectors.foldl (fun keys key => keys ++ [key]) acc = acc ++ selectors := by
  induction selectors generalizing acc with
  | nil => simp
  | cons key rest ih => simp [ih]

/-- C14. The constructor `Rule::Rule` throws exactly when neither
`on_present` nor `on_missing` is set, or `on_missing` is set without a value, or
`on_error` is set without a value; in every other case it returns the rule
whose keys are the configured selector keys, in the same order and with
duplicates kept. -/
theorem Rule_create_iff (rule : ProtoRule) :
    ((∃ message, Rule.create rule = .error message) ↔
      (rule.on_present = none ∧ rule.on_missing = none) ∨
      (∃ keyval, rule.on_missing = some keyval ∧ keyval.value = none) ∨
      (∃ keyval, rule.on_error = some keyval ∧ keyval.value = none)) ∧
    (¬ ((rule.on_present = none ∧ rule.on_missing = none) ∨
        (∃ keyval, rule.on_missing = some keyval ∧ keyval.value = none) ∨
        (∃ keyval, rule.on_error = some keyval ∧ keyval.value = none)) →
      Rule.create rule = .ok { rule_ := rule, keys_ := rule.selectors }) ∧
    (∀ created, Rule.create rule = .ok created →
      created.rule_ = rule ∧ created.keys_ = rule.selectors ∧
      created.keys_.length = rule.selectors.length) := by
  have hkeys : rule.selectors.foldl (fun keys key => keys ++ [key]) [] = rule.selectors := by
    rw [foldl_push_back]
    rfl
  have hcases : (((rule.on_present = none ∧ rule.on_missing = none) ∨
        (∃ keyval, rule.on_missing = some keyval ∧ keyval.value = none) ∨
        (∃ keyval, rule.on_error = some keyval ∧ keyval.value = none)) ∧
        ∃ message, Rule.create rule = .error message) ∨
      (¬ ((rule.on_present = none ∧ rule.on_missing = none) ∨
        (∃ keyval, rule.on_missing = some keyval ∧ keyval.value = none) ∨
        (∃ keyval, rule.on_error = some keyval ∧ keyval.value = none)) ∧
        Rule.create rule = .ok { rule_ := rule, keys_ := rule.selectors }) := by
    unfold Rule.create
    rw [hkeys]
    cases hp : rule.on_present with
    | none =>
      cases hm : rule.on_missing with
      | none => exact Or.inl ⟨Or.inl ⟨rfl, rfl⟩, _, rfl⟩
      | some missing =>
        cases hmv : missing.value with
        | none =>
          refine Or.inl ⟨Or.inr (Or.inl ⟨missing, rfl, hmv⟩), ?_⟩
          simp [hmv]
        | some mvalue =>
          cases he : rule.on_error with
          | none =>
            refine Or.inr ⟨?_, by simp [hmv]⟩
            simp [hmv]
          | some error =>
            cases hev : error.value with
            | none =>
              refine Or.inl ⟨Or.inr (Or.inr ⟨error, rfl, hev⟩), ?_⟩
              simp [hmv, hev]
            | some evalue =>
              refine Or.inr ⟨?_, by simp [hmv, hev]⟩
              simp [hmv, hev]
    | some present =>
      cases hm : rule.on_missing with
      | none =>
        cases he : rule.on_error with
        | none =>
          refine Or.inr ⟨?_, by simp⟩
          simp
        | some error =>
          cases hev : error.value with
          | none =>
            refine Or.inl ⟨Or.inr (Or.inr ⟨error, rfl, hev⟩), ?_⟩
            simp [hev]
          | some evalue =>
            refine Or.inr ⟨?_, by simp [hev]⟩
            simp [hev]
      | some missing =>
        cases hmv : missing.value with
        | none =>
          refine Or.inl ⟨Or.inr (Or.inl ⟨missing, rfl, hmv⟩), ?_⟩
          simp [hmv]
        | some mvalue =>
          cases he : rule.on_error with
          | none =>
            refine Or.inr ⟨?_, by simp [hmv]⟩
            simp [hmv]
          | some error =>
            cases hev : error.value with
            | none =>
              refine Or.inl ⟨Or.inr (Or.inr ⟨error, rfl, hev⟩), ?_⟩
              simp [hmv, hev]
            | some evalue =>
              refine Or.inr ⟨?_, by simp [hmv, hev]⟩
              simp [hmv, hev]
  refine ⟨?_, ?_, ?_⟩
  · constructor
    · rintro ⟨message, hmsg⟩
      rcases hcases with ⟨hcond, _⟩ | ⟨_, hok⟩
      · exact hcond
      · rw [hok] at hmsg
        cases hmsg
    · intro hcond
      rcases hcases with ⟨_, herr⟩ | ⟨hnot, _⟩
      · exact herr
      · exact absurd hcond hnot
  · intro hnot
    rcases hcases with ⟨hcond, _⟩ | ⟨_, hok⟩
    · exact absurd hcond hnot
    · exact hok
  · intro created hcreated
    rcases hcases with ⟨_, message, herr⟩ | ⟨_, hok⟩
    · rw [herr] at hcreated
      cases hcreated
    · rw [hok] at hcreated
      cases hcreated
      exact ⟨rfl, rfl, rfl⟩

theorem descendFrom_fst_prefix (i : Nat) (node : Json) (keys : List String) :
    ∃ k, k ≤ keys.length ∧ (descendFrom i node keys).1 = List.range' i k := by
  induction keys generalizing i node with
  | nil => exact ⟨0, Nat.le_refl _, by simp [descendFrom]⟩
  | cons key rest ih =>
    cases hg : getObjectNoThrow node key with
    | error status => exact ⟨1, by simp, by simp [descendFrom, hg, List.range']⟩
    | ok next_node =>
      obtain ⟨k, hk, hfst⟩ := ih (i + 1) next_node
      exact ⟨k + 1, by simp only [List.length_cons]; omega,
        by simp [descendFrom, hg, hfst, List.range']⟩

/-- C20. For a path of `n ≥ 1` keys (and `n` below `2^64`), the index loop of
`processBody` ends without a fault; it reads the keys at the positions
`0, 1, ...` in that order, every position read is below `n - 1`, it stops at
the first lookup that fails and otherwise reads all of `0 .. n-2`; the leaf key
`keys.back()` is the key at position `n - 1`; with `n = 1` no position is read
and the leaf is looked up on the root. The bound `keys.size() - 1` is unsigned:
for `n = 0` it is `2^64 - 1`, `Rule::Rule` accepts a rule without selectors, and
the loop then reads `keys[0]` out of bounds. -/
theorem walk_indices_in_bounds (h : Host) (filter_metadata : StructMap) (body_json : Json)
    (keys : List String) (struct_map : StructMap)
    (hpos : 0 < keys.length) (hlt : keys.length < 2 ^ 64) :
    (∃ visited result,
      walkKeys keys (sizeMinusOne keys.length) (sizeMinusOne keys.length) 0 body_json
        = .ok (visited, result) ∧
      (∃ k, k ≤ keys.length - 1 ∧ visited = List.range k) ∧
      (∀ i ∈ visited, i < keys.length - 1 ∧ i < keys.length) ∧
      result = descend body_json keys.dropLast ∧
      (∀ node, result = .ok node → visited = List.range (keys.length - 1)) ∧
      (∀ (before after : List String) (key : String) (reached : Json) (status : StatusCode),
        keys.dropLast = before ++ key :: after →
        descend body_json before = .ok reached →
        getObjectNoThrow reached key = .error status →
        visited = List.range (before.length + 1) ∧ result = .error status) ∧
      (keys.length = 1 → visited = [] ∧ result = .ok body_json)) ∧
    keys.getLast? = keys[keys.length - 1]? ∧
    keys.getLast?.isSome = true ∧
    sizeMinusOne 0 = 2 ^ 64 - 1 ∧
    (∀ keyval : KeyValuePair,
      Rule.create { selectors := [], on_present := some keyval, on_missing := none,
                    on_error := none }
        = .ok { rule_ := { selectors := [], on_present := some keyval, on_missing := none,
                           on_error := none }
                keys_ := [] }) ∧
    (∀ rule_ : ProtoRule,
      processRule h filter_metadata body_json { rule_ := rule_, keys_ := [] } struct_map
        = .error .outOfBounds) := by
  have hne : keys ≠ [] := by
    intro hnil
    rw [hnil] at hpos
    exact Nat.lt_irrefl 0 hpos
  have hk : keys = keys.dropLast ++ [keys.getLast hne] :=
    (List.dropLast_append_getLast hne).symm
  have hinit : keys.dropLast.length = keys.length - 1 := List.length_dropLast keys
  refine ⟨⟨(descendFrom 0 body_json keys.dropLast).1, (descendFrom 0 body_json keys.dropLast).2,
    walkKeys_path keys keys.dropLast (keys.getLast hne) body_json hk hlt, ?_, ?_,
    descendFrom_snd 0 body_json keys.dropLast, ?_, ?_, ?_⟩, List.getLast?_eq_getElem? keys,
    by simp [List.getLast?_eq_getLast _ hne], by decide, fun keyval => rfl, fun rule_ => rfl⟩
  · obtain ⟨k, hkle, hfst⟩ := descendFrom_fst_prefix 0 body_json keys.dropLast
    exact ⟨k, by omega, by rw [hfst, List.range_eq_range']⟩
  · obtain ⟨k, hkle, hfst⟩ := descendFrom_fst_prefix 0 body_json keys.dropLast
    intro i hi
    rw [hfst, ← List.range_eq_range', List.mem_range] at hi
    omega
  · intro node hnode
    rw [descendFrom_snd] at hnode
    rw [descendFrom_fst_of_ok 0 body_json node keys.dropLast hnode, hinit,
      List.range_eq_range']
  · intro before after key reached status hsplit hwalk hmiss
    rw [hsplit, descendFrom_snd,
      descendFrom_fst_of_error 0 body_json reached before after key status hwalk hmiss,
      descend_append_error body_json reached before after key status hwalk hmiss,
      List.range_eq_range']
    exact ⟨rfl, rfl⟩
  · intro hone
    have hnil : keys.dropLast = [] := List.length_eq_zero.mp (by omega)
    rw [hnil]
    exact ⟨rfl, rfl⟩

/-- The path `a`, `b` on the body `{"a":{"b":"42"}}` reads position 0 only and
reaches the inner object, on which the leaf key `b` at position 1 is looked up;
the path `b` alone reads no position. -/
theorem walk_indices_in_bounds_witness :
    walkKeys ["a", "b"] (sizeMinusOne 2) (sizeMinusOne 2) 0
        (.object [("a", .object [("b", .string "42")])])
      = .ok ([0], descend (.object [("a", .object [("b", .string "42")])]) ["a"]) ∧
    (["a", "b"] : List String).getLast? = some "b" ∧
    walkKeys ["b"] (sizeMinusOne 1) (sizeMinusOne 1) 0 (.object [("b", .string "42")])
      = .ok ([], .ok (.object [("b", .string "42")])) := by
  obtain ⟨⟨visited, result, hwalk, _, _, hresult, hall, _, _⟩, _⟩ :=
    walk_indices_in_bounds sampleHost [] (.object [("a", .object [("b", .string "42")])])
      ["a", "b"] [] (by decide) (by decide)
  obtain ⟨⟨visited1, result1, hwalk1, _, _, _, _, _, hone⟩, _⟩ :=
    walk_indices_in_bounds sampleHost [] (.object [("b", .string "42")])
      ["b"] [] (by decide) (by decide)
  refine ⟨?_, rfl, ?_⟩
  · refine hwalk.trans ?_
    rw [hall _ (by rw [hresult]; rfl), hresult]
    rfl
  · refine hwalk1.trans ?_
    rw [(hone rfl).1, (hone rfl).2]

/-! ## The staged map and the commit -/

theorem applyKeyValue_dropped (filter_metadata : StructMap) (value : ProtoValue)
    (keyval : KeyValuePair) (struct_map : StructMap)
    (hd : writeApplied filter_metadata (keyval, value) = false) :
    applyKeyValue filter_metadata value keyval struct_map = struct_map := by
  simp only [writeApplied, Bool.not_eq_false', Bool.and_eq_true] at hd
  obtain ⟨hp, hs⟩ := hd
  unfold applyKeyValue
  simp only [hp]
  rw [addMetadata_dropped filter_metadata _ keyval.key value struct_map hs]

theorem applyKeyValue_applied (filter_metadata : StructMap) (value : ProtoValue)
    (keyval : KeyValuePair) (struct_map : StructMap)
    (ha : writeApplied filter_metadata (keyval, value) = true) :
    applyKeyValue filter_metadata value keyval struct_map =
      assocSet struct_map (decideNamespace keyval.metadata_namespace)
        (assocSet ((assocFind struct_map (decideNamespace keyval.metadata_namespace)).getD [])
          keyval.key value) := by
  have hc : ¬ (keyval.preserve_existing_metadata_value = true ∧
      storeContains filter_metadata (decideNamespace keyval.metadata_namespace) keyval.key
        = true) := by
    intro hboth
    simp [writeApplied, hboth.1, hboth.2] at ha
  unfold applyKeyValue
  simp only []
  rw [addMetadata_written filter_metadata _ keyval.key value _ struct_map hc]

theorem stageWrites_eq_nil_iff (filter_metadata : StructMap) (writes : List Write)
    (struct_map : StructMap) :
    stageWrites filter_metadata writes struct_map = [] ↔
      struct_map = [] ∧ ∀ write ∈ writes, writeApplied filter_metadata write = false := by
  induction writes generalizing struct_map with
  | nil => simp [stageWrites]
  | cons write rest ih =>
    obtain ⟨keyval, value⟩ := write
    simp only [stageWrites, stageWrite, ih, List.mem_cons, forall_eq_or_imp]
    cases ha : writeApplied filter_metadata (keyval, value) with
    | false =>
      rw [applyKeyValue_dropped filter_metadata value keyval struct_map ha]
      simp
    | true =>
      rw [applyKeyValue_applied filter_metadata value keyval struct_map ha]
      simp [assocSet_ne_nil]

theorem commit_signal_count (filter_metadata : StructMap) (writes : List Write) :
    (if (stageWrites filter_metadata writes []).isEmpty then 0 else 1)
      = (if writes.any (writeApplied filter_metadata) then 1 else 0) := by
  by_cases hnil : stageWrites filter_metadata writes [] = []
  · have hall := ((stageWrites_eq_nil_iff filter_metadata writes []).mp hnil).2
    have hany : writes.any (writeApplied filter_metadata) = false := by
      rw [List.any_eq_false]
      intro w hw
      simp [hall w hw]
    simp [hnil, hany]
  · have hany : writes.any (writeApplied filter_metadata) = true := by
      by_contra hno
      apply hnil
      rw [stageWrites_eq_nil_iff]
      refine ⟨rfl, ?_⟩
      intro w hw
      cases ha : writeApplied filter_metadata w with
      | false => rfl
      | true =>
        exfalso
        apply hno
        rw [List.any_eq_true]
        exact ⟨w, hw, ha⟩
    have hne : (stageWrites filter_metadata writes []).isEmpty = false := by
      cases hs : stageWrites filter_metadata writes [] with
      | nil => exact absurd hs hnil
      | cons entry rest => rfl
    simp [hne, hany]

theorem mem_keys_assocSet {β : Type} (m : List (String × β)) (name : String) (v : β)
    (x : String) :
    x ∈ (assocSet m name v).map Prod.fst ↔ x ∈ m.map Prod.fst ∨ x = name := by
  induction m with
  | nil => simp [assocSet]
  | cons e rest ih =>
    obtain ⟨k, w⟩ := e
    by_cases hk : k = name
    · subst hk
      simp only [assocSet, if_true, List.map_cons, List.mem_cons]
      constructor
      · rintro (hx | hx)
        · exact Or.inl (Or.inl hx)
        · exact Or.inl (Or.inr hx)
      · rintro ((hx | hx) | hx)
        · exact Or.inl hx
        · exact Or.inr hx
        · exact Or.inl hx
    · simp only [assocSet, hk, if_false, List.map_cons, List.mem_cons, ih]
      constructor
      · rintro (hx | hx | hx)
        · exact Or.inl (Or.inl hx)
        · exact Or.inl (Or.inr hx)
        · exact Or.inr hx
      · rintro ((hx | hx) | hx)
        · exact Or.inl hx
        · exact Or.inr (Or.inl hx)
        · exact Or.inr (Or.inr hx)

theorem nodup_keys_assocSet {β : Type} (m : List (String × β)) (name : String) (v : β)
    (hm : (m.map Prod.fst).Nodup) : ((assocSet m name v).map Prod.fst).Nodup := by
  induction m with
  | nil => simp [assocSet]
  | cons e rest ih =>
    obtain ⟨k, w⟩ := e
    simp only [List.map_cons, List.nodup_cons] at hm
    by_cases hk : k = name
    · simp only [assocSet, hk, if_true, List.map_cons, List.nodup_cons]
      rw [hk] at hm
      exact hm
    · simp only [assocSet, hk, if_false, List.map_cons, List.nodup_cons, mem_keys_assocSet]
      refine ⟨?_, ih hm.2⟩
      rintro (hx | hx)
      · exact hm.1 hx
      · exact hx

theorem nodup_keys_stageWrites (filter_metadata : StructMap) (writes : List Write)
    (struct_map : StructMap) (hm : (struct_map.map Prod.fst).Nodup) :
    ((stageWrites filter_metadata writes struct_map).map Prod.fst).Nodup := by
  induction writes generalizing struct_map with
  | nil => exact hm
  | cons write rest ih =>
    obtain ⟨keyval, value⟩ := write
    simp only [stageWrites, stageWrite]
    apply ih
    cases ha : writeApplied filter_metadata (keyval, value) with
    | false =>
      rw [applyKeyValue_dropped filter_metadata value keyval struct_map ha]
      exact hm
    | true =>
      rw [applyKeyValue_applied filter_metadata value keyval struct_map ha]
      exact nodup_keys_assocSet _ _ _ hm

/-- C16. For a staged map handed to `finalizeDynamicMetadata` on a filter whose
flag is not set: an empty map makes no `setDynamicMetadata` call, leaves the
store as it was and does not call `clearRouteCache`; a non-empty map makes one
`setDynamicMetadata` call per entry of the map, with the entry's namespace and
staged fields, and calls `clearRouteCache` once. A map staged by a pass has
each namespace once and is empty exactly when every write of the pass was
dropped by the `preserve_existing_metadata_value` check, so over `processBody`
`clearRouteCache` is called once when some write of a rule was applied and not
at all otherwise. -/
theorem commit_effects (h : Host) (f : Filter) (struct_map : StructMap) (bytes : String)
    (body_json : Json) (rules : List Rule)
    (hflag : f.request_processing_finished_ = false)
    (hlen : bytes.utf8ByteSize ≠ 0)
    (hload : h.loadFromStringNoThrow bytes = .ok (some body_json))
    (hwf : ∀ rule ∈ rules, rule.walkable) :
    (∃ f1, finalizeDynamicMetadata f struct_map = .ok f1 ∧
      (struct_map = [] →
        f1.setDynamicMetadataCalls = f.setDynamicMetadataCalls ∧
        f1.dynamicMetadata = f.dynamicMetadata ∧
        f1.clearRouteCacheCalls = f.clearRouteCacheCalls) ∧
      (struct_map ≠ [] →
        f1.setDynamicMetadataCalls = f.setDynamicMetadataCalls ++ struct_map ∧
        f1.dynamicMetadata = setAllDynamicMetadata f.dynamicMetadata struct_map ∧
        f1.clearRouteCacheCalls = f.clearRouteCacheCalls + 1)) ∧
    (∀ writes : List Write,
      ((stageWrites f.dynamicMetadata writes []).map Prod.fst).Nodup ∧
      (stageWrites f.dynamicMetadata writes [] = [] ↔
        ∀ write ∈ writes, writeApplied f.dynamicMetadata write = false)) ∧
    (∃ f1, processBody h f (some bytes) rules = .ok f1 ∧
      f1.setDynamicMetadataCalls = f.setDynamicMetadataCalls
        ++ stageWrites f.dynamicMetadata (rules.filterMap (ruleWrite h body_json)) [] ∧
      f1.clearRouteCacheCalls = f.clearRouteCacheCalls
        + (if (rules.filterMap (ruleWrite h body_json)).any (writeApplied f.dynamicMetadata)
            then 1 else 0)) ∧
    (∃ f1, processBody h f none rules = .ok f1 ∧
      f1.clearRouteCacheCalls = f.clearRouteCacheCalls
        + (if (rules.filterMap onMissingWrite).any (writeApplied f.dynamicMetadata)
            then 1 else 0)) ∧
    (∀ (other : String) (message : String), other.utf8ByteSize ≠ 0 →
      h.loadFromStringNoThrow other = .error message →
      ∃ f1, processBody h f (some other) rules = .ok f1 ∧
        f1.clearRouteCacheCalls = f.clearRouteCacheCalls
          + (if (rules.filterMap onErrorWrite).any (writeApplied f.dynamicMetadata)
              then 1 else 0)) := by
  refine ⟨⟨_, finalizeDynamicMetadata_ok f struct_map hflag, ?_, ?_⟩, ?_, ?_, ?_, ?_⟩
  · intro hnil
    subst hnil
    exact ⟨by simp [Filter.afterCommit], rfl, rfl⟩
  · intro hne
    refine ⟨rfl, rfl, ?_⟩
    cases struct_map with
    | nil => exact absurd rfl hne
    | cons entry rest => rfl
  · intro writes
    refine ⟨nodup_keys_stageWrites f.dynamicMetadata writes [] (by simp), ?_⟩
    rw [stageWrites_eq_nil_iff]
    simp
  · refine ⟨_, processBody_object h f bytes rules body_json hflag hlen hload hwf, rfl, ?_⟩
    simp only [Filter.afterCommit, Filter.incSuccess]
    rw [commit_signal_count]
  · refine ⟨_, processBody_none h f rules hflag, ?_⟩
    simp only [Filter.afterCommit, Filter.incNoBody, stageAllOnMissing_eq_writes]
    rw [commit_signal_count]
  · intro other message hother hfail
    refine ⟨_, processBody_invalid h f other rules message hflag hother hfail, ?_⟩
    simp only [Filter.afterCommit, Filter.incInvalidJsonBody, stageAllOnError_eq_writes]
    rw [commit_signal_count]

/-- The store already holds the key `k`. A rule that writes `k` with
`preserve_existing_metadata_value` set is dropped: the commit receives an empty
map and `clearRouteCache` is not called. A rule that writes `n` is applied:
one `setDynamicMetadata` call is made and `clearRouteCache` is called once. -/
theorem commit_effects_witness :
    (∃ f1,
      processBody sampleHost
        (sampleFilter
          [sampleRule ["x"] (some (sampleKeyValue "k" (some (.stringValue "new")) .STRING true))
            none none]
          [("envoy.filters.http.json_to_metadata", [("k", .stringValue "old")])])
        (some "\x7b\x7d")
        [sampleRule ["x"] (some (sampleKeyValue "k" (some (.stringValue "new")) .STRING true))
            none none] = .ok f1 ∧
      f1.finalizeCalls = [[]] ∧
      f1.setDynamicMetadataCalls = [] ∧
      f1.clearRouteCacheCalls = 0) ∧
    (∃ f1,
      processBody sampleHost
        (sampleFilter
          [sampleRule ["x"] (some (sampleKeyValue "n" (some (.stringValue "new")) .STRING true))
            none none]
          [("envoy.filters.http.json_to_metadata", [("k", .stringValue "old")])])
        (some "\x7b\x7d")
        [sampleRule ["x"] (some (sampleKeyValue "n" (some (.stringValue "new")) .STRING true))
            none none] = .ok f1 ∧
      f1.setDynamicMetadataCalls
        = [("envoy.filters.http.json_to_metadata", [("n", .stringValue "new")])] ∧
      f1.clearRouteCacheCalls = 1) := by
  obtain ⟨_, _, ⟨f1, hbody1, hcalls1, hclear1⟩, _⟩ :=
    commit_effects sampleHost
      (sampleFilter
        [sampleRule ["x"] (some (sampleKeyValue "k" (some (.stringValue "new")) .STRING true))
          none none]
        [("envoy.filters.http.json_to_metadata", [("k", .stringValue "old")])])
      [] "\x7b\x7d" (.object [])
      [sampleRule ["x"] (some (sampleKeyValue "k" (some (.stringValue "new")) .STRING true))
          none none]
      rfl (by decide) rfl (by decide)
  obtain ⟨_, _, ⟨f2, hbody2, hcalls2, hclear2⟩, _⟩ :=
    commit_effects sampleHost
      (sampleFilter
        [sampleRule ["x"] (some (sampleKeyValue "n" (some (.stringValue "new")) .STRING true))
          none none]
        [("envoy.filters.http.json_to_metadata", [("k", .stringValue "old")])])
      [] "\x7b\x7d" (.object [])
      [sampleRule ["x"] (some (sampleKeyValue "n" (some (.stringValue "new")) .STRING true))
          none none]
      rfl (by decide) rfl (by decide)
  refine ⟨⟨f1, hbody1, ?_, hcalls1, hclear1⟩, ⟨f2, hbody2, hcalls2, hclear2⟩⟩
  cases hbody1
  rfl

theorem lookupEntry_write_same (struct_map : StructMap) (nspace key : String)
    (value : ProtoValue) :
    lookupEntry (assocSet struct_map nspace
      (assocSet ((assocFind struct_map nspace).getD []) key value)) nspace key = some value := by
  simp [lookupEntry, assocFind_assocSet_same]

theorem lookupEntry_write_other (struct_map : StructMap) (nspace key other_nspace
    other_key : String) (value : ProtoValue)
    (hne : ¬ (other_nspace = nspace ∧ other_key = key)) :
    lookupEntry (assocSet struct_map other_nspace
      (assocSet ((assocFind struct_map other_nspace).getD []) other_key value)) nspace key
      = lookupEntry struct_map nspace key := by
  by_cases hns : other_nspace = nspace
  · subst hns
    have hkey : key ≠ other_key := fun hEq => hne ⟨rfl, hEq.symm⟩
    simp only [lookupEntry, assocFind_assocSet_same]
    rw [assocFind_assocSet_other _ other_key key value hkey]
    cases assocFind struct_map other_nspace <;> simp [assocFind]
  · have hns2 : nspace ≠ other_nspace := fun hEq => hns hEq.symm
    simp only [lookupEntry]
    rw [assocFind_assocSet_other struct_map other_nspace nspace _ hns2]

theorem lookupEntry_stageWrite_hit (filter_metadata : StructMap) (nspace key : String)
    (write : Write) (struct_map : StructMap)
    (ht : writeTargets nspace key write = true)
    (ha : writeApplied filter_metadata write = true) :
    lookupEntry (stageWrite filter_metadata (some write) struct_map) nspace key
      = some write.2 := by
  obtain ⟨keyval, value⟩ := write
  simp only [writeTargets, Bool.and_eq_true, decide_eq_true_eq] at ht
  obtain ⟨hns, hkey⟩ := ht
  simp only [stageWrite]
  rw [applyKeyValue_applied filter_metadata value keyval struct_map ha, hns, hkey]
  exact lookupEntry_write_same struct_map nspace key value

theorem lookupEntry_stageWrite_miss (filter_metadata : StructMap) (nspace key : String)
    (write : Write) (struct_map : StructMap)
    (hmiss : writeTargets nspace key write = true →
      writeApplied filter_metadata write = false) :
    lookupEntry (stageWrite filter_metadata (some write) struct_map) nspace key
      = lookupEntry struct_map nspace key := by
  obtain ⟨keyval, value⟩ := write
  simp only [stageWrite]
  cases ha : writeApplied filter_metadata (keyval, value) with
  | false => rw [applyKeyValue_dropped filter_metadata value keyval struct_map ha]
  | true =>
    rw [applyKeyValue_applied filter_metadata value keyval struct_map ha]
    apply lookupEntry_write_other
    intro hboth
    have ht : writeTargets nspace key (keyval, value) = true := by
      simp [writeTargets, hboth.1, hboth.2]
    rw [hmiss ht] at ha
    cases ha

theorem lookupEntry_stageWrites_miss (filter_metadata : StructMap) (nspace key : String)
    (writes : List Write) (struct_map : StructMap)
    (hmiss : ∀ write ∈ writes, writeTargets nspace key write = true →
      writeApplied filter_metadata write = false) :
    lookupEntry (stageWrites filter_metadata writes struct_map) nspace key
      = lookupEntry struct_map nspace key := by
  induction writes generalizing struct_map with
  | nil => rfl
  | cons write rest ih =>
    simp only [stageWrites]
    rw [ih _ (fun w hw => hmiss w (List.mem_cons_of_mem _ hw)),
      lookupEntry_stageWrite_miss filter_metadata nspace key write struct_map
        (hmiss write (List.mem_cons_self _ _))]

theorem lookupEntry_last_write (filter_metadata : StructMap) (writeOf : Rule → Option Write)
    (pre post : List Rule) (rule : Rule) (write : Write) (nspace key : String)
    (struct_map : StructMap)
    (hw : writeOf rule = some write)
    (ht : writeTargets nspace key write = true)
    (ha : writeApplied filter_metadata write = true)
    (hlater : ∀ later ∈ post, ∀ w, writeOf later = some w →
      writeTargets nspace key w = true → writeApplied filter_metadata w = false) :
    lookupEntry (stageWrites filter_metadata ((pre ++ rule :: post).filterMap writeOf)
      struct_map) nspace key = some write.2 := by
  rw [List.filterMap_append, List.filterMap_cons, hw, stageWrites_append]
  simp only [stageWrites]
  rw [lookupEntry_stageWrites_miss, lookupEntry_stageWrite_hit filter_metadata nspace key write
    _ ht ha]
  intro w hmem
  obtain ⟨later, hlaterMem, hlaterW⟩ := List.mem_filterMap.mp hmem
  exact hlater later hlaterMem w hlaterW

/-- C8. Within one pass, the rule loop of `processBody` or the loop of
`handleAllOnMissing` or of `handleAllOnError`, take a rule whose write targets a
resolved namespace and key and passes the `preserve_existing_metadata_value`
check, and after which no rule makes such a write to that namespace and key:
the map handed to the commit holds the value of that rule there, whatever the
rules before it staged. Whether a write passes the check depends on the
metadata store alone, never on the map being staged, so this holds also when
the rule has `preserve_existing_metadata_value` set. -/
theorem last_applied_write_wins (h : Host) (f : Filter) (bytes : String) (body_json : Json)
    (pre post : List Rule) (rule : Rule) (nspace key : String)
    (hflag : f.request_processing_finished_ = false)
    (hlen : bytes.utf8ByteSize ≠ 0)
    (hload : h.loadFromStringNoThrow bytes = .ok (some body_json))
    (hwf : ∀ r ∈ pre ++ rule :: post, r.walkable) :
    (∀ write, ruleWrite h body_json rule = some write →
      writeTargets nspace key write = true →
      writeApplied f.dynamicMetadata write = true →
      (∀ later ∈ post, ∀ w, ruleWrite h body_json later = some w →
        writeTargets nspace key w = true → writeApplied f.dynamicMetadata w = false) →
      ∃ f1 staged, processBody h f (some bytes) (pre ++ rule :: post) = .ok f1 ∧
        processRules h f.dynamicMetadata body_json (pre ++ rule :: post) [] = .ok staged ∧
        f1.finalizeCalls = f.finalizeCalls ++ [staged] ∧
        lookupEntry staged nspace key = some write.2) ∧
    (∀ write, onMissingWrite rule = some write →
      writeTargets nspace key write = true →
      writeApplied f.dynamicMetadata write = true →
      (∀ later ∈ post, ∀ w, onMissingWrite later = some w →
        writeTargets nspace key w = true → writeApplied f.dynamicMetadata w = false) →
      lookupEntry (stageAllOnMissing f.dynamicMetadata (pre ++ rule :: post) []) nspace key
        = some write.2) ∧
    (∀ write, onErrorWrite rule = some write →
      writeTargets nspace key write = true →
      writeApplied f.dynamicMetadata write = true →
      (∀ later ∈ post, ∀ w, onErrorWrite later = some w →
        writeTargets nspace key w = true → writeApplied f.dynamicMetadata w = false) →
      lookupEntry (stageAllOnError f.dynamicMetadata (pre ++ rule :: post) []) nspace key
        = some write.2) ∧
    (∀ (write : Write) (first second : StructMap),
      writeApplied f.dynamicMetadata write = true →
      lookupEntry (stageWrite f.dynamicMetadata (some write) first)
          (decideNamespace write.1.metadata_namespace) write.1.key = some write.2 ∧
      lookupEntry (stageWrite f.dynamicMetadata (some write) second)
          (decideNamespace write.1.metadata_namespace) write.1.key = some write.2) := by
  refine ⟨?_, ?_, ?_, ?_⟩
  · intro write hw ht ha hlater
    refine ⟨_, _, processBody_object h f bytes _ body_json hflag hlen hload hwf,
      processRules_eq_writes h f.dynamicMetadata body_json _ [] hwf, rfl, ?_⟩
    exact lookupEntry_last_write f.dynamicMetadata (ruleWrite h body_json) pre post rule write
      nspace key [] hw ht ha hlater
  · intro write hw ht ha hlater
    rw [stageAllOnMissing_eq_writes]
    exact lookupEntry_last_write f.dynamicMetadata onMissingWrite pre post rule write
      nspace key [] hw ht ha hlater
  · intro write hw ht ha hlater
    rw [stageAllOnError_eq_writes]
    exact lookupEntry_last_write f.dynamicMetadata onErrorWrite pre post rule write
      nspace key [] hw ht ha hlater
  · intro write first second ha
    have ht : writeTargets (decideNamespace write.1.metadata_namespace) write.1.key write
        = true := by simp [writeTargets]
    exact ⟨lookupEntry_stageWrite_hit f.dynamicMetadata _ _ write first ht ha,
      lookupEntry_stageWrite_hit f.dynamicMetadata _ _ write second ht ha⟩

/-- Two rules write the key `k`: the first the literal `one`, the second the
literal `two` with `preserve_existing_metadata_value` set. The store does not
hold `k`, so the second write is applied over the staged `one` and the commit
receives `two`. -/
theorem last_applied_write_wins_witness :
    ∃ f1,
      processBody sampleHost
        (sampleFilter
          [sampleRule ["x"] (some (sampleKeyValue "k" (some (.stringValue "one")) .STRING false))
            none none,
           sampleRule ["y"] (some (sampleKeyValue "k" (some (.stringValue "two")) .STRING true))
            none none] [])
        (some "\x7b\x7d")
        [sampleRule ["x"] (some (sampleKeyValue "k" (some (.stringValue "one")) .STRING false))
            none none,
           sampleRule ["y"] (some (sampleKeyValue "k" (some (.stringValue "two")) .STRING true))
            none none] = .ok f1 ∧
      f1.finalizeCalls = [[("envoy.filters.http.json_to_metadata",
        [("k", .stringValue "two")])]] := by
  obtain ⟨f1, staged, hbody, hstaged, hcalls, _⟩ :=
    (last_applied_write_wins sampleHost
      (sampleFilter
        [sampleRule ["x"] (some (sampleKeyValue "k" (some (.stringValue "one")) .STRING false))
          none none,
         sampleRule ["y"] (some (sampleKeyValue "k" (some (.stringValue "two")) .STRING true))
          none none] [])
      "\x7b\x7d" (.object [])
      [sampleRule ["x"] (some (sampleKeyValue "k" (some (.stringValue "one")) .STRING false))
          none none]
      []
      (sampleRule ["y"] (some (sampleKeyValue "k" (some (.stringValue "two")) .STRING true))
          none none)
      "envoy.filters.http.json_to_metadata" "k"
      rfl (by decide) rfl (by decide)).1
      (sampleKeyValue "k" (some (.stringValue "two")) .STRING true, .stringValue "two")
      rfl (by decide) (by decide) (fun later hlater => by simp at hlater)
  cases hstaged
  exact ⟨f1, hbody, hcalls⟩

end JsonToMetadata
